import Mathlib

/-!
Shallow embedding of the noclip.website asset-viewer sources (TypeScript) in
Lean 4, together with proofs checking the natural-language specification
against the code.

Conventions used throughout:
* byte buffers (`ArrayBuffer` contents) are `List Nat`, one `Nat` per byte;
* JavaScript `number` offsets and lengths that may be negative are `Int`;
* fallible operations (a thrown `assert`, an out-of-bounds `DataView` or
  typed-array read, a rejected promise) are modelled with `Option`, `none`
  standing for the exceptional outcome;
* JavaScript floating-point values are modelled as `ℚ` where only their
  ordered-field structure matters.
-/

/-! ## src/ArrayBufferSlice.ts -/

/-- Endianness, from `src/endian.ts` (`Endianness.LITTLE_ENDIAN` /
`Endianness.BIG_ENDIAN`). -/
inductive Endianness where
  | littleEndian
  | bigEndian
deriving DecidableEq, Repr

/-- The `ArrayBufferSlice` class: a read-only view of an underlying
`ArrayBuffer`, given by the backing buffer, a byte offset and a byte length.
The offset and length are `Int` because arbitrary JavaScript numbers can be
passed to the constructor. -/
structure ArrayBufferSlice where
  arrayBuffer : List Nat
  byteOffset : Int
  byteLength : Int
deriving DecidableEq, Repr

/-- The invariant asserted by the `ArrayBufferSlice` constructor:
`byteOffset >= 0 && byteLength >= 0 && (byteOffset + byteLength) <= arrayBuffer.byteLength`. -/
def sliceInvariant (s : ArrayBufferSlice) : Prop :=
  0 ≤ s.byteOffset ∧ 0 ≤ s.byteLength ∧ s.byteOffset + s.byteLength ≤ (s.arrayBuffer.length : Int)

instance (s : ArrayBufferSlice) : Decidable (sliceInvariant s) := by
  unfold sliceInvariant; infer_instance

/-- The `ArrayBufferSlice` constructor. The `assert` throws (modelled by
`none`) unless the invariant holds. The default arguments mirror the source:
`byteOffset = 0`, `byteLength = arrayBuffer.byteLength`. -/
def mkArrayBufferSlice (arrayBuffer : List Nat) (byteOffset : Int := 0)
    (byteLength : Int := (arrayBuffer.length : Int)) : Option ArrayBufferSlice :=
  if 0 ≤ byteOffset ∧ 0 ≤ byteLength ∧ byteOffset + byteLength ≤ (arrayBuffer.length : Int) then
    some ⟨arrayBuffer, byteOffset, byteLength⟩
  else
    none

namespace ArrayBufferSlice

/-- `ArrayBufferSlice.prototype.slice(begin, end = 0)`: a sub-view from byte
offset `b` to byte offset `e` of this slice, where `e = 0` means the end of
this slice. No copy is made; the result shares `arrayBuffer`. -/
def slice (s : ArrayBufferSlice) (b : Int) (e : Int := 0) : Option ArrayBufferSlice :=
  let absBegin := s.byteOffset + b
  let absEnd := s.byteOffset + (if e ≠ 0 then e else s.byteLength)
  let byteLength := absEnd - absBegin
  if 0 ≤ byteLength ∧ byteLength ≤ s.byteLength then
    mkArrayBufferSlice s.arrayBuffer absBegin (absEnd - absBegin)
  else
    none

/-- `ArrayBufferSlice.prototype.subarray(begin, byteLength?)`: a sub-view
starting at byte offset `b` with the given length (defaulting to the rest of
this slice). No copy is made. -/
def subarray (s : ArrayBufferSlice) (b : Int) (byteLength? : Option Int := none) :
    Option ArrayBufferSlice :=
  let absBegin := s.byteOffset + b
  let byteLength := match byteLength? with
    | none => s.byteLength - b
    | some l => l
  if 0 ≤ byteLength ∧ byteLength ≤ s.byteLength then
    mkArrayBufferSlice s.arrayBuffer absBegin byteLength
  else
    none

/-- The bytes visible through a slice, as read through
`createTypedArray(Uint8Array)` when the invariant holds. -/
def viewBytes (s : ArrayBufferSlice) : List Nat :=
  (s.arrayBuffer.drop s.byteOffset.toNat).take s.byteLength.toNat

/-- `createTypedArray(Uint8Array)` over the whole slice: the `Uint8Array`
constructor throws when the view is out of bounds of the backing buffer. -/
def createUint8Array (s : ArrayBufferSlice) : Option (List Nat) :=
  if sliceInvariant s then some (viewBytes s) else none

end ArrayBufferSlice

/-- Byte-pair reversal: the loop body of `bswap16`
(`o[i+0] = a[i+1]; o[i+1] = a[i+0]` for even `i`). -/
def swapPairs : List Nat → List Nat
  | a :: b :: rest => b :: a :: swapPairs rest
  | rest => rest

/-- Byte-quadruple reversal: the loop body of `bswap32`
(`o[i+0] = a[i+3]; … o[i+3] = a[i+0]` for `i` a multiple of 4). -/
def swapQuads : List Nat → List Nat
  | a :: b :: c :: d :: rest => d :: c :: b :: a :: swapQuads rest
  | rest => rest

namespace ArrayBufferSlice

/-- `ArrayBufferSlice.prototype.bswap16`: asserts the byte length is even,
then builds a fresh buffer with every aligned byte pair reversed and wraps it
in a new full-view slice. -/
def bswap16 (s : ArrayBufferSlice) : Option ArrayBufferSlice :=
  if s.byteLength % 2 = 0 then do
    let a ← s.createUint8Array
    let o := swapPairs a
    mkArrayBufferSlice o
  else
    none

/-- `ArrayBufferSlice.prototype.bswap32`: asserts the byte length is a
multiple of 4, then builds a fresh buffer with every aligned 4-byte group
reversed and wraps it in a new full-view slice. -/
def bswap32 (s : ArrayBufferSlice) : Option ArrayBufferSlice :=
  if s.byteLength % 4 = 0 then do
    let a ← s.createUint8Array
    let o := swapQuads a
    mkArrayBufferSlice o
  else
    none

/-- `ArrayBufferSlice.prototype.bswap(componentSize)`: dispatches to
`bswap16` or `bswap32`; any other component size throws. -/
def bswap (s : ArrayBufferSlice) (componentSize : Nat) : Option ArrayBufferSlice :=
  if componentSize = 2 then s.bswap16
  else if componentSize = 4 then s.bswap32
  else none

/-- `ArrayBufferSlice.prototype.convertFromEndianness(endianness,
componentSize)`. `getSystemEndianness()` is a runtime probe of the host
machine, so the system endianness is taken as an explicit parameter
`sysEnd`. -/
def convertFromEndianness (s : ArrayBufferSlice) (sysEnd endianness : Endianness)
    (componentSize : Nat) : Option ArrayBufferSlice :=
  if componentSize ≠ 1 ∧ endianness ≠ sysEnd then
    s.bswap componentSize
  else
    some s

end ArrayBufferSlice

/-- Index of the byte that lands at position `i` when every aligned group of
`cs` consecutive bytes is reversed. -/
def groupFlip (cs i : Nat) : Nat :=
  (i / cs) * cs + (cs - 1 - i % cs)

theorem swapPairs_length : ∀ l : List Nat, (swapPairs l).length = l.length
  | [] => rfl
  | [_] => rfl
  | _ :: _ :: rest => by simp [swapPairs, swapPairs_length rest]

theorem swapQuads_length : ∀ l : List Nat, (swapQuads l).length = l.length
  | [] => rfl
  | [_] => rfl
  | [_, _] => rfl
  | [_, _, _] => rfl
  | _ :: _ :: _ :: _ :: rest => by simp [swapQuads, swapQuads_length rest]

theorem swapPairs_get? : ∀ l : List Nat, l.length % 2 = 0 →
    ∀ i : Nat, (swapPairs l).get? i = l.get? (groupFlip 2 i)
  | [], _, i => by cases i <;> simp [swapPairs, groupFlip]
  | [_], h, _ => by simp at h
  | a :: b :: rest, h, i => by
    have hr : rest.length % 2 = 0 := by simp at h; omega
    match i with
    | 0 => simp [swapPairs, groupFlip]
    | 1 => simp [swapPairs, groupFlip]
    | (n + 2) =>
      have hflip : groupFlip 2 (n + 2) = groupFlip 2 n + 2 := by
        unfold groupFlip; omega
      simp only [swapPairs, List.get?, hflip]
      exact swapPairs_get? rest hr n

theorem swapQuads_get? : ∀ l : List Nat, l.length % 4 = 0 →
    ∀ i : Nat, (swapQuads l).get? i = l.get? (groupFlip 4 i)
  | [], _, i => by cases i <;> simp [swapQuads, groupFlip]
  | [_], h, _ => by simp at h
  | [_, _], h, _ => by simp at h
  | [_, _, _], h, _ => by simp at h
  | a :: b :: c :: d :: rest, h, i => by
    have hr : rest.length % 4 = 0 := by simp at h; omega
    match i with
    | 0 => simp [swapQuads, groupFlip]
    | 1 => simp [swapQuads, groupFlip]
    | 2 => simp [swapQuads, groupFlip]
    | 3 => simp [swapQuads, groupFlip]
    | (n + 4) =>
      have hflip : groupFlip 4 (n + 4) = groupFlip 4 n + 4 := by
        unfold groupFlip; omega
      simp only [swapQuads, List.get?, hflip]
      exact swapQuads_get? rest hr n

/-- When the invariant holds, the view of a slice has exactly `byteLength`
bytes. -/
theorem viewBytes_length (s : ArrayBufferSlice) (hs : sliceInvariant s) :
    (ArrayBufferSlice.viewBytes s).length = s.byteLength.toNat := by
  obtain ⟨h1, h2, h3⟩ := hs
  simp only [ArrayBufferSlice.viewBytes, List.length_take, List.length_drop]
  omega

theorem mkArrayBufferSlice_eq_some {buf : List Nat} {off len : Int} {s : ArrayBufferSlice} :
    mkArrayBufferSlice buf off len = some s ↔
      (0 ≤ off ∧ 0 ≤ len ∧ off + len ≤ (buf.length : Int)) ∧ s = ⟨buf, off, len⟩ := by
  unfold mkArrayBufferSlice
  split <;> simp_all [eq_comm]

/-- C3: `convertFromEndianness(endianness, componentSize)` returns the
receiver itself when `componentSize = 1` or the endianness matches the system
endianness; otherwise, for component sizes 2 and 4 and a byte length
divisible by the component size, it returns a new slice of the same byte
length in which every aligned group of `componentSize` consecutive bytes is
reversed. -/
theorem c3_convertFromEndianness (s : ArrayBufferSlice) (sysEnd endianness : Endianness)
    (cs : Nat) :
    ((cs = 1 ∨ endianness = sysEnd) →
      s.convertFromEndianness sysEnd endianness cs = some s) ∧
    (sliceInvariant s → (cs = 2 ∨ cs = 4) → endianness ≠ sysEnd →
      s.byteLength % (cs : Int) = 0 →
      ∃ t, s.convertFromEndianness sysEnd endianness cs = some t ∧
        t.byteLength = s.byteLength ∧
        ∀ i : Nat, t.viewBytes.get? i = s.viewBytes.get? (groupFlip cs i)) := by
  constructor
  · intro h
    have hc : ¬(cs ≠ 1 ∧ endianness ≠ sysEnd) := by tauto
    unfold ArrayBufferSlice.convertFromEndianness
    rw [if_neg hc]
  · intro hinv hcs hne hmod
    have hc : cs ≠ 1 ∧ endianness ≠ sysEnd := ⟨by omega, hne⟩
    unfold ArrayBufferSlice.convertFromEndianness
    rw [if_pos hc]
    have hlen := viewBytes_length s hinv
    have hcu : s.createUint8Array = some s.viewBytes := by
      unfold ArrayBufferSlice.createUint8Array
      rw [if_pos hinv]
    obtain ⟨h1, h2, h3⟩ := hinv
    rcases hcs with hcs | hcs <;> subst hcs
    · have hmod2 : s.byteLength % 2 = 0 := by exact_mod_cast hmod
      have hpar : s.viewBytes.length % 2 = 0 := by rw [hlen]; omega
      unfold ArrayBufferSlice.bswap ArrayBufferSlice.bswap16
      rw [if_pos rfl, if_pos hmod2]
      simp only [hcu, Option.bind_eq_bind, Option.some_bind]
      rw [show mkArrayBufferSlice (swapPairs s.viewBytes) =
        some ⟨swapPairs s.viewBytes, 0, ((swapPairs s.viewBytes).length : Int)⟩ from
        mkArrayBufferSlice_eq_some.mpr ⟨⟨le_refl 0, by positivity, by omega⟩, rfl⟩]
      refine ⟨_, rfl, ?_, ?_⟩
      · simp only [swapPairs_length, hlen]
        omega
      · intro i
        have hview : (ArrayBufferSlice.viewBytes
            ⟨swapPairs s.viewBytes, 0, ((swapPairs s.viewBytes).length : Int)⟩) =
            swapPairs s.viewBytes := by
          simp [ArrayBufferSlice.viewBytes]
        rw [hview]
        exact swapPairs_get? s.viewBytes hpar i
    · have hmod4 : s.byteLength % 4 = 0 := by exact_mod_cast hmod
      have hpar : s.viewBytes.length % 4 = 0 := by rw [hlen]; omega
      unfold ArrayBufferSlice.bswap ArrayBufferSlice.bswap32
      rw [if_neg (by omega), if_pos rfl, if_pos hmod4]
      simp only [hcu, Option.bind_eq_bind, Option.some_bind]
      rw [show mkArrayBufferSlice (swapQuads s.viewBytes) =
        some ⟨swapQuads s.viewBytes, 0, ((swapQuads s.viewBytes).length : Int)⟩ from
        mkArrayBufferSlice_eq_some.mpr ⟨⟨le_refl 0, by positivity, by omega⟩, rfl⟩]
      refine ⟨_, rfl, ?_, ?_⟩
      · simp only [swapQuads_length, hlen]
        omega
      · intro i
        have hview : (ArrayBufferSlice.viewBytes
            ⟨swapQuads s.viewBytes, 0, ((swapQuads s.viewBytes).length : Int)⟩) =
            swapQuads s.viewBytes := by
          simp [ArrayBufferSlice.viewBytes]
        rw [hview]
        exact swapQuads_get? s.viewBytes hpar i

/-- Witness for C3 at a concrete slice of four bytes, converted with
component size 2 on a little-endian system from big-endian data. -/
theorem c3_witness :
    sliceInvariant ⟨[1, 2, 3, 4], 0, 4⟩ ∧
    (∃ t, ArrayBufferSlice.convertFromEndianness ⟨[1, 2, 3, 4], 0, 4⟩
        Endianness.littleEndian Endianness.bigEndian 2 = some t ∧
      t.byteLength = (⟨[1, 2, 3, 4], 0, 4⟩ : ArrayBufferSlice).byteLength ∧
      ∀ i : Nat, t.viewBytes.get? i =
        (⟨[1, 2, 3, 4], 0, 4⟩ : ArrayBufferSlice).viewBytes.get? (groupFlip 2 i)) :=
  ⟨by decide,
    (c3_convertFromEndianness ⟨[1, 2, 3, 4], 0, 4⟩ Endianness.littleEndian
        Endianness.bigEndian 2).2 (by decide) (Or.inl rfl) (by decide) (by decide)⟩

/-- C9: every successfully constructed `ArrayBufferSlice` satisfies the
bounds invariant, and `slice`/`subarray` return views over the very same
backing buffer whose byte offset is the receiver's offset plus `begin`. -/
theorem c9_slice_views :
    (∀ (buf : List Nat) (off len : Int) (s : ArrayBufferSlice),
      mkArrayBufferSlice buf off len = some s → sliceInvariant s) ∧
    (∀ (s t : ArrayBufferSlice) (b e : Int), s.slice b e = some t →
      t.arrayBuffer = s.arrayBuffer ∧ t.byteOffset = s.byteOffset + b ∧ sliceInvariant t) ∧
    (∀ (s t : ArrayBufferSlice) (b : Int) (l : Option Int), s.subarray b l = some t →
      t.arrayBuffer = s.arrayBuffer ∧ t.byteOffset = s.byteOffset + b ∧ sliceInvariant t) := by
  refine ⟨?_, ?_, ?_⟩
  · intro buf off len s h
    obtain ⟨hc, rfl⟩ := mkArrayBufferSlice_eq_some.mp h
    exact hc
  · intro s t b e h
    unfold ArrayBufferSlice.slice at h
    dsimp only at h
    split at h <;> split at h <;>
      first
        | (obtain ⟨hc, rfl⟩ := mkArrayBufferSlice_eq_some.mp h
           exact ⟨rfl, rfl, hc⟩)
        | exact absurd h (by simp)
  · intro s t b l h
    unfold ArrayBufferSlice.subarray at h
    dsimp only at h
    split at h <;>
      first
        | (obtain ⟨hc, rfl⟩ := mkArrayBufferSlice_eq_some.mp h
           exact ⟨rfl, rfl, hc⟩)
        | exact absurd h (by simp)

/-- Witness for C9 at concrete inputs: a constructed slice, a `slice` call
and a `subarray` call on it. -/
theorem c9_witness :
    sliceInvariant ⟨[5, 6, 7, 8], 1, 3⟩ ∧
    ((⟨[5, 6, 7, 8], 1, 3⟩ : ArrayBufferSlice).slice 1 2 = some ⟨[5, 6, 7, 8], 2, 1⟩ →
      (⟨[5, 6, 7, 8], 2, 1⟩ : ArrayBufferSlice).arrayBuffer = [5, 6, 7, 8] ∧
      (⟨[5, 6, 7, 8], 2, 1⟩ : ArrayBufferSlice).byteOffset = 1 + 1 ∧
      sliceInvariant ⟨[5, 6, 7, 8], 2, 1⟩) ∧
    (⟨[5, 6, 7, 8], 2, 1⟩ : ArrayBufferSlice).arrayBuffer = [5, 6, 7, 8] := by
  refine ⟨c9_slice_views.1 [5, 6, 7, 8] 1 3 _ (by decide), ?_, ?_⟩
  · intro h
    exact c9_slice_views.2.1 ⟨[5, 6, 7, 8], 1, 3⟩ _ 1 2 h
  · exact (c9_slice_views.2.2 ⟨[5, 6, 7, 8], 1, 3⟩ _ 1 (some 1) (by decide)).1

/-! ## src/j3d/smg/RailRider.ts -/

/-- A `gl-matrix` `vec3`. Components are modelled as rationals; only their
ordered-field structure is relevant to the claims below. -/
structure Vec3 where
  x : ℚ
  y : ℚ
  z : ℚ
deriving DecidableEq, Repr

/-- `equalEpsilon(a, b, ep)`: `return a - ep > b && a + ep < b;`. -/
def equalEpsilon (a b ep : ℚ) : Bool :=
  decide (a - ep > b) && decide (a + ep < b)

/-- `equalEpsilonVec3(a, b, ep)`: componentwise `equalEpsilon` over the three
vector components. -/
def equalEpsilonVec3 (a b : Vec3) (ep : ℚ) : Bool :=
  equalEpsilon a.x b.x ep && equalEpsilon a.y b.y ep && equalEpsilon a.z b.z ep

/-- The two rail-part classes. Only which constructor runs, and with which
control points, is modelled; the numeric fields the constructors compute
(`vec3.length`, arc lengths) are floating-point internals outside the scope
of the claims. -/
inductive RailPart where
  | linearRailPart (p0 p3 : Vec3)
  | bezierRailPart (p0 p1 p2 p3 : Vec3)
deriving DecidableEq, Repr

/-- `makeRailPart(p0, p1, p2, p3)`: chooses `LinearRailPart` when both ends
of the control polygon are `equalEpsilonVec3`-close with epsilon `0.01`, and
`BezierRailPart` otherwise. -/
def makeRailPart (p0 p1 p2 p3 : Vec3) : RailPart :=
  if equalEpsilonVec3 p0 p1 (0.01 : ℚ) && equalEpsilonVec3 p2 p3 (0.01 : ℚ) then
    RailPart.linearRailPart p0 p3
  else
    RailPart.bezierRailPart p0 p1 p2 p3

theorem equalEpsilon_false (a b ep : ℚ) (hep : 0 < ep) : equalEpsilon a b ep = false := by
  by_cases h1 : a - ep > b
  · have h2 : ¬(a + ep < b) := by linarith
    simp [equalEpsilon, h2]
  · simp [equalEpsilon, h1]

theorem equalEpsilonVec3_false (a b : Vec3) (ep : ℚ) (hep : 0 < ep) :
    equalEpsilonVec3 a b ep = false := by
  simp [equalEpsilonVec3, equalEpsilon_false _ _ _ hep]

/-- C8: `equalEpsilon` is inverted — it returns `false` for every pair of
numbers and every positive epsilon — and consequently `makeRailPart`, which
compares control points with epsilon `0.01`, always constructs a
`BezierRailPart`. -/
theorem c8_equalEpsilon_makeRailPart :
    (∀ a b ep : ℚ, 0 < ep → equalEpsilon a b ep = false) ∧
    (∀ p0 p1 p2 p3 : Vec3, makeRailPart p0 p1 p2 p3 = RailPart.bezierRailPart p0 p1 p2 p3) := by
  refine ⟨equalEpsilon_false, fun p0 p1 p2 p3 => ?_⟩
  have h : equalEpsilonVec3 p0 p1 (0.01 : ℚ) = false :=
    equalEpsilonVec3_false p0 p1 _ (by norm_num)
  simp [makeRailPart, h]

/-- Witness for C8 at concrete inputs. -/
theorem c8_witness :
    ((0 : ℚ) < 1 ∧ equalEpsilon 2 2 1 = false) ∧
    makeRailPart ⟨0, 0, 0⟩ ⟨0, 0, 0⟩ ⟨0, 0, 0⟩ ⟨0, 0, 0⟩ =
      RailPart.bezierRailPart ⟨0, 0, 0⟩ ⟨0, 0, 0⟩ ⟨0, 0, 0⟩ ⟨0, 0, 0⟩ :=
  ⟨⟨by norm_num, c8_equalEpsilon_makeRailPart.1 2 2 1 (by norm_num)⟩,
    c8_equalEpsilon_makeRailPart.2 ⟨0, 0, 0⟩ ⟨0, 0, 0⟩ ⟨0, 0, 0⟩ ⟨0, 0, 0⟩⟩

/-! ## src/j3d/ztp_scenes.ts — pass masks (C2) -/

/-- The `ZTPPass` filter-key values (`1 << 0` … `1 << 3`). -/
def ZTPPass.SKYBOX : Nat := 1
/-- `ZTPPass.OPAQUE = 1 << 1`. -/
def ZTPPass.OPAQUE : Nat := 2
/-- `ZTPPass.INDIRECT = 1 << 2`. -/
def ZTPPass.INDIRECT : Nat := 4
/-- `ZTPPass.TRANSPARENT = 1 << 3`. -/
def ZTPPass.TRANSPARENT : Nat := 8

/-- A sampler of a J3D `TEX1` section; only its name matters here. -/
structure TexSampler where
  name : String
deriving DecidableEq, Repr

/-- The `TEX1` section of a parsed BMD: its sampler list. -/
structure TEX1 where
  samplers : List TexSampler
deriving DecidableEq, Repr

/-- A parsed BMD model file, restricted to the `TEX1` section used by
`bmdModelUsesTexture`. -/
structure BMD where
  tex1 : TEX1
deriving DecidableEq, Repr

/-- A `BMDModel` wraps a parsed `BMD`. -/
structure BMDModel where
  bmd : BMD
deriving DecidableEq, Repr

/-- `bmdModelUsesTexture(model, textureName)`: whether the model's `TEX1`
sampler list contains a sampler with the given name
(`model.bmd.tex1.samplers.some((sampler) => sampler.name === textureName)`). -/
def bmdModelUsesTexture (model : BMDModel) (textureName : String) : Bool :=
  model.bmd.tex1.samplers.any fun sampler => sampler.name == textureName

/-- The basename of a RARC file name, as computed by
`bmdFile.name.split('.')[0]` in `createRoomScenes`. -/
def fileBasename (name : String) : String :=
  (name.splitOn ".").headD ""

/-- The pass-mask assignment block of
`TwilightPrincessSceneDesc.createRoomScenes`, as a function of the file's
basename and the model built from the file. -/
def createRoomScenesPassMask (basename : String) (bmdModel : BMDModel) : Nat :=
  if basename = "model" then
    ZTPPass.OPAQUE
  else if basename = "model1" then
    if bmdModelUsesTexture bmdModel "fbtex_dummy" then ZTPPass.INDIRECT else ZTPPass.OPAQUE
  else if basename = "model2" then
    ZTPPass.TRANSPARENT
  else if basename = "model3" then
    ZTPPass.TRANSPARENT
  else if basename = "model4" ∨ basename = "model5" then
    ZTPPass.TRANSPARENT
  else
    0

/-- The pass-mask mapping exactly as the claim states it, for comparison
with `createRoomScenesPassMask`. -/
def claimedRoomPassMask (basename : String) (bmdModel : BMDModel) : Nat :=
  if basename = "model" then
    ZTPPass.OPAQUE
  else if basename = "model1" then
    if (bmdModel.bmd.tex1.samplers.any fun sampler => sampler.name == "fbtex_dummy") then
      ZTPPass.INDIRECT
    else
      ZTPPass.OPAQUE
  else if basename = "model2" ∨ basename = "model3" ∨ basename = "model4" ∨
      basename = "model5" then
    ZTPPass.TRANSPARENT
  else
    0

/-- C2: the pass mask of a room model instance is determined solely by the
file's basename — `model` is opaque; `model1` is indirect exactly when the
model's `TEX1` samplers contain `fbtex_dummy` and opaque otherwise;
`model2` … `model5` are transparent; anything else gets mask 0. -/
theorem c2_createRoomScenes_passMask (basename : String) (bmdModel : BMDModel) :
    createRoomScenesPassMask basename bmdModel = claimedRoomPassMask basename bmdModel := by
  unfold createRoomScenesPassMask claimedRoomPassMask bmdModelUsesTexture
  by_cases h0 : basename = "model" <;>
    by_cases h1 : basename = "model1" <;>
      by_cases h2 : basename = "model2" <;>
        by_cases h3 : basename = "model3" <;>
          by_cases h4 : basename = "model4" <;>
            by_cases h5 : basename = "model5" <;>
              simp_all

/-! ## Byte readers (`DataView` big-endian accessors) and `readString` -/

/-- `DataView.prototype.getUint8(off)`: one byte; throws (here `none`) when
out of bounds. -/
def getUint8 (buffer : List Nat) (off : Nat) : Option Nat :=
  buffer.get? off

/-- `DataView.prototype.getUint16(off)` with the default big-endian byte
order used throughout these parsers. -/
def getUint16BE (buffer : List Nat) (off : Nat) : Option Nat := do
  let a ← buffer.get? off
  let b ← buffer.get? (off + 1)
  pure (a * 256 + b)

/-- `DataView.prototype.getUint32(off)` with the default big-endian byte
order used throughout these parsers. -/
def getUint32BE (buffer : List Nat) (off : Nat) : Option Nat := do
  let a ← buffer.get? off
  let b ← buffer.get? (off + 1)
  let c ← buffer.get? (off + 2)
  let d ← buffer.get? (off + 3)
  pure (((a * 256 + b) * 256 + c) * 256 + d)

/-- Character codes of a string literal; JavaScript strings are modelled as
their code-unit sequences (`List Nat`). -/
def ascii (s : String) : List Nat :=
  s.data.map Char.toNat

/-- Modelled from the spec: the helper `readString(buffer, offs, length,
nulTerminated = true)` of `src/util.ts` is not among the provided sources
(the spec treats `util` as an external collaborator). It is modelled as
reading `length` bytes at `offs` — failing when they extend past the end of
the buffer, as the underlying typed-array construction does — and, when
`nulTerminated` is set, truncating at the first NUL byte. The result is the
code-unit sequence of the returned string. -/
def readString (buffer : List Nat) (offs length : Nat) (nulTerminated : Bool := true) :
    Option (List Nat) :=
  if offs + length ≤ buffer.length then
    let bytes := (buffer.drop offs).take length
    some (if nulTerminated then bytes.takeWhile (fun b => b != 0) else bytes)
  else
    none

/-! ## src/Scenes_FileDrops.ts (C4) -/

/-- `decompressArbitraryFile(buffer)`: sniffs the first four bytes and
dispatches to a decompression codec. The codecs themselves (`Yaz0.decompress`
and `CX.decompress`) are out-of-scope pure byte transforms, so they are
taken as function parameters `yaz0` and `cx`. -/
def decompressArbitraryFile (yaz0 cx : List Nat → List Nat) (buffer : List Nat) :
    Option (List Nat) := do
  let magic ← readString buffer 0 4
  if magic = ascii "Yaz0" then
    pure (yaz0 buffer)
  else if magic.head? = some 0x10 ∨ magic.head? = some 0x11 then
    pure (cx buffer)
  else
    pure buffer

/-- The decompression step of `ModelCache.fetchArchive` in
`src/j3d/ztp_scenes.ts`: Yaz0-decompress the fetched data exactly when its
magic reads `Yaz0`, before handing the result to `RARC.parse`. -/
def fetchArchiveDecompress (yaz0 : List Nat → List Nat) (data : List Nat) :
    Option (List Nat) := do
  let magic ← readString data 0 4
  if magic = ascii "Yaz0" then
    pure (yaz0 data)
  else
    pure data

theorem readString_first4 (buffer : List Nat) (h4 : 4 ≤ buffer.length) :
    readString buffer 0 4 = some ((buffer.take 4).takeWhile (fun b => b != 0)) := by
  unfold readString
  rw [if_pos (by omega)]
  simp

theorem takeWhile_ne_yaz0 (t4 : List Nat) (hlen : t4.length = 4)
    (hy : t4 ≠ ascii "Yaz0") : t4.takeWhile (fun b => b != 0) ≠ ascii "Yaz0" := by
  intro hcontr
  apply hy
  have hpre := List.takeWhile_prefix (l := t4) (p := fun b => b != 0)
  rw [hcontr] at hpre
  exact (List.IsPrefix.eq_of_length hpre (by rw [hlen]; rfl)).symm

theorem takeWhile_take4_head? (b : Nat) (rest : List Nat) :
    (((b :: rest).take 4).takeWhile (fun x => x != 0)).head? =
      if b != 0 then some b else none := by
  have hstep : (b :: rest).take 4 = b :: rest.take 3 := rfl
  by_cases hz : (b != 0) = true
  · simp [hstep, List.takeWhile_cons, hz]
  · have hz' : (b != 0) = false := by simpa using hz
    simp [hstep, List.takeWhile_cons, hz']

/-- C4: `decompressArbitraryFile` applies Yaz0 exactly when the first four
bytes are ASCII `Yaz0`, applies CX exactly when the first byte is `0x10` or
`0x11` (and the magic is not `Yaz0`), and otherwise resolves with the buffer
unchanged; `ModelCache.fetchArchive` Yaz0-decompresses exactly when the
magic reads `Yaz0`. -/
theorem c4_decompressArbitraryFile (yaz0 cx : List Nat → List Nat)
    (buffer data : List Nat) (hb : 4 ≤ buffer.length) (hd : 4 ≤ data.length) :
    decompressArbitraryFile yaz0 cx buffer =
      some (if buffer.take 4 = ascii "Yaz0" then yaz0 buffer
        else if buffer.head? = some 0x10 ∨ buffer.head? = some 0x11 then cx buffer
        else buffer) ∧
    fetchArchiveDecompress yaz0 data =
      some (if data.take 4 = ascii "Yaz0" then yaz0 data else data) := by
  constructor
  · unfold decompressArbitraryFile
    rw [readString_first4 buffer hb]
    simp only [Option.bind_eq_bind, Option.some_bind]
    by_cases hy : buffer.take 4 = ascii "Yaz0"
    · rw [if_pos hy]
      rw [if_pos (by rw [hy]; rfl)]
      rfl
    · have hlen4 : (buffer.take 4).length = 4 := by simp; omega
      rw [if_neg hy, if_neg (takeWhile_ne_yaz0 _ hlen4 hy)]
      obtain ⟨b, rest, rfl⟩ : ∃ b rest, buffer = b :: rest := by
        cases buffer with
        | nil => simp at hb
        | cons b rest => exact ⟨b, rest, rfl⟩
      have hh := takeWhile_take4_head? b rest
      by_cases hb16 : b = 0x10 ∨ b = 0x11
      · have hbne : (b != 0) = true := by rcases hb16 with h | h <;> simp [h]
        rw [if_pos hbne] at hh
        rw [if_pos (by rw [hh]; rcases hb16 with h | h <;> simp [h]),
          if_pos (by rcases hb16 with h | h <;> simp [h])]
        rfl
      · rw [if_neg (by
          rw [hh]
          by_cases hz : (b != 0) = true
          · rw [if_pos hz]
            simp only [Option.some.injEq]
            tauto
          · rw [if_neg hz]
            simp)]
        rw [if_neg (by simp only [List.head?_cons, Option.some.injEq]; tauto)]
        rfl
  · unfold fetchArchiveDecompress
    rw [readString_first4 data hd]
    simp only [Option.bind_eq_bind, Option.some_bind]
    by_cases hy : data.take 4 = ascii "Yaz0"
    · rw [if_pos hy, if_pos (by rw [hy]; rfl)]
      rfl
    · have hlen4 : (data.take 4).length = 4 := by simp; omega
      rw [if_neg hy, if_neg (takeWhile_ne_yaz0 _ hlen4 hy)]
      rfl

/-- Witness for C4 at concrete buffers: a CX-magic buffer and a Yaz0-magic
archive. -/
theorem c4_witness :
    (4 ≤ [0x10, 0, 0, 0].length ∧ 4 ≤ [0x59, 0x61, 0x7A, 0x30].length) ∧
    (decompressArbitraryFile (fun _ => [1]) (fun _ => [2]) [0x10, 0, 0, 0] =
      some (if [0x10, 0, 0, 0].take 4 = ascii "Yaz0" then (fun _ => [1]) [0x10, 0, 0, 0]
        else if ([0x10, 0, 0, 0] : List Nat).head? = some 0x10 ∨
            ([0x10, 0, 0, 0] : List Nat).head? = some 0x11 then
          (fun _ => [2]) [0x10, 0, 0, 0]
        else [0x10, 0, 0, 0]) ∧
    fetchArchiveDecompress (fun _ => [1]) [0x59, 0x61, 0x7A, 0x30] =
      some (if [0x59, 0x61, 0x7A, 0x30].take 4 = ascii "Yaz0" then
          (fun _ => [1]) [0x59, 0x61, 0x7A, 0x30]
        else [0x59, 0x61, 0x7A, 0x30])) :=
  ⟨⟨by decide, by decide⟩,
    c4_decompressArbitraryFile (fun _ => [1]) (fun _ => [2]) [0x10, 0, 0, 0]
      [0x59, 0x61, 0x7A, 0x30] (by decide) (by decide)⟩


/-! ## JavaScript `Map` / `Set` models

The DZS chunk tables key their maps by 4-character type strings, modelled as
code-unit lists (`List Nat`). -/

/-- `Map.prototype.set(k, v)`: replaces the value of an existing key in
place, otherwise appends the new entry. -/
def mapSet {V : Type} (m : List (List Nat × V)) (k : List Nat) (v : V) : List (List Nat × V) :=
  if m.any (fun kv => kv.1 == k) then
    m.map (fun kv => if kv.1 == k then (k, v) else kv)
  else
    m ++ [(k, v)]

/-- `Map.prototype.get(k)`: the value stored for `k`, if any. -/
def mapGet {V : Type} (m : List (List Nat × V)) (k : List Nat) : Option V :=
  (m.find? (fun kv => kv.1 == k)).map (fun kv => kv.2)

/-- `Set.prototype.add(x)` on an insertion-ordered set. -/
def setAdd (l : List Nat) (x : Nat) : List Nat :=
  if x ∈ l then l else l ++ [x]

theorem findKey_cons_of_pos {V : Type} (t : List Nat) (x : List Nat × V)
    (l : List (List Nat × V)) (hx : (x.1 == t) = true) :
    List.find? (fun kv => kv.1 == t) (x :: l) = some x := by
  simp [List.find?_cons, hx]

theorem findKey_cons_of_neg {V : Type} (t : List Nat) (x : List Nat × V)
    (l : List (List Nat × V)) (hx : (x.1 == t) = false) :
    List.find? (fun kv => kv.1 == t) (x :: l) = List.find? (fun kv => kv.1 == t) l := by
  simp [List.find?_cons, hx]

theorem find?_map_replace {V : Type} (m : List (List Nat × V)) (k t : List Nat)
    (v : V) (hne : t ≠ k) :
    (m.map (fun kv => if kv.1 == k then (k, v) else kv)).find? (fun kv => kv.1 == t) =
      m.find? (fun kv => kv.1 == t) := by
  induction m with
  | nil => rfl
  | cons kv m' ih =>
    by_cases hk : (kv.1 == k) = true
    · have hk' : kv.1 = k := by simpa using hk
      rw [List.map_cons, if_pos hk]
      rw [findKey_cons_of_neg t _ _ (by simp [Ne.symm hne]),
        findKey_cons_of_neg t _ _ (by simp [hk', Ne.symm hne])]
      exact ih
    · rw [List.map_cons, if_neg hk]
      by_cases ht : (kv.1 == t) = true
      · rw [findKey_cons_of_pos t _ _ ht, findKey_cons_of_pos t _ _ ht]
      · rw [findKey_cons_of_neg t _ _ (by simpa using ht),
          findKey_cons_of_neg t _ _ (by simpa using ht)]
        exact ih

theorem find?_mapSet {V : Type} (m : List (List Nat × V)) (k t : List Nat) (v : V) :
    (mapSet m k v).find? (fun kv => kv.1 == t) =
      if t = k then some (k, v) else m.find? (fun kv => kv.1 == t) := by
  induction m with
  | nil =>
    by_cases h : t = k
    · simp only [mapSet, List.any_nil, Bool.false_eq_true, if_false, List.nil_append,
        if_pos h]
      exact findKey_cons_of_pos t (k, v) [] (by simp [h])
    · simp only [mapSet, List.any_nil, Bool.false_eq_true, if_false, List.nil_append,
        if_neg h, List.find?_nil]
      exact findKey_cons_of_neg t (k, v) [] (by simpa using Ne.symm h)
  | cons kv m' ih =>
    unfold mapSet at ih ⊢
    by_cases hany : ((kv :: m').any fun kv => kv.1 == k) = true
    · rw [if_pos hany, List.map_cons]
      by_cases hk : (kv.1 == k) = true
      · have hk' : kv.1 = k := by simpa using hk
        rw [if_pos hk]
        by_cases ht : t = k
        · rw [if_pos ht]
          exact findKey_cons_of_pos t (k, v) _ (by simp [ht])
        · rw [if_neg ht, findKey_cons_of_neg t (k, v) _ (by simpa using Ne.symm ht),
            findKey_cons_of_neg t kv _ (by simp [hk']; exact Ne.symm ht)]
          exact find?_map_replace m' k t v ht
      · rw [if_neg hk]
        have hany' : (m'.any fun kv => kv.1 == k) = true := by
          simp only [List.any_cons, Bool.or_eq_true] at hany
          rcases hany with h | h
          · exact absurd h hk
          · exact h
        rw [if_pos hany'] at ih
        by_cases htk : (kv.1 == t) = true
        · have ht : ¬t = k := by
            intro hc
            subst hc
            simp_all
          rw [if_neg ht, findKey_cons_of_pos t kv _ htk, findKey_cons_of_pos t kv _ htk]
        · rw [findKey_cons_of_neg t kv _ (by simpa using htk),
            findKey_cons_of_neg t kv _ (by simpa using htk)]
          exact ih
    · rw [if_neg hany]
      have hsplit : ¬(((kv.1 == k) = true) ∨ ((m'.any fun kv => kv.1 == k) = true)) := by
        simpa [List.any_cons] using hany
      have hkvk : ¬(kv.1 == k) = true := fun h => hsplit (Or.inl h)
      have hany' : ¬(m'.any fun kv => kv.1 == k) = true := fun h => hsplit (Or.inr h)
      rw [if_neg hany'] at ih
      rw [List.cons_append]
      by_cases htk : (kv.1 == t) = true
      · have ht : ¬t = k := by
          intro hc
          subst hc
          simp_all
        rw [if_neg ht, findKey_cons_of_pos t kv _ htk, findKey_cons_of_pos t kv _ htk]
      · rw [findKey_cons_of_neg t kv _ (by simpa using htk),
          findKey_cons_of_neg t kv _ (by simpa using htk)]
        exact ih

theorem mapGet_mapSet {V : Type} (m : List (List Nat × V)) (k t : List Nat) (v : V) :
    mapGet (mapSet m k v) t = if t = k then some v else mapGet m t := by
  unfold mapGet
  rw [find?_mapSet]
  by_cases h : t = k
  · rw [if_pos h, if_pos h]
    rfl
  · rw [if_neg h, if_neg h]

theorem mapSet_length {V : Type} (m : List (List Nat × V)) (k : List Nat) (v : V) :
    (mapSet m k v).length ≤ m.length + 1 := by
  unfold mapSet
  split <;> simp

/-! ## src/j3d/ztp_scenes.ts — `parseDZSHeaders` (C6) -/

/-- A DZS chunk header: the 4-character type string (as code units), the
entry count and the data offset. -/
structure DZSChunkHeader where
  type : List Nat
  count : Nat
  offs : Nat
deriving DecidableEq, Repr

/-- The chunk-table loop of `parseDZSHeaders`: reads one 12-byte record per
iteration (4-character type at `+0`, `u32` count at `+4`, `u32` offset at
`+8`) and writes it into the map. -/
def parseDZSHeadersLoop (buffer : List Nat) (m : List (List Nat × DZSChunkHeader))
    (idx : Nat) : Nat → Option (List (List Nat × DZSChunkHeader))
  | 0 => some m
  | n + 1 => do
    let type ← readString buffer idx 4
    let numEntries ← getUint32BE buffer (idx + 4)
    let offs ← getUint32BE buffer (idx + 8)
    parseDZSHeadersLoop buffer (mapSet m type ⟨type, numEntries, offs⟩) (idx + 12) n

/-- `parseDZSHeaders(buffer)`: a `u32` chunk count at offset 0 followed by
that many 12-byte records starting at offset 4, collected into a map keyed
by the type string. -/
def parseDZSHeaders (buffer : List Nat) : Option (List (List Nat × DZSChunkHeader)) := do
  let chunkCount ← getUint32BE buffer 0
  parseDZSHeadersLoop buffer [] 4 chunkCount

/-- The raw sequence of `(type, count, offs)` records the chunk-table loop
reads, without the map. -/
def dzsRecords (buffer : List Nat) (idx : Nat) : Nat → Option (List (List Nat × Nat × Nat))
  | 0 => some []
  | n + 1 => do
    let type ← readString buffer idx 4
    let numEntries ← getUint32BE buffer (idx + 4)
    let offs ← getUint32BE buffer (idx + 8)
    let rest ← dzsRecords buffer (idx + 12) n
    pure ((type, numEntries, offs) :: rest)

/-- One step of the map construction, as folded over the record list. -/
def dzsStep (acc : List (List Nat × DZSChunkHeader)) (r : List Nat × Nat × Nat) :
    List (List Nat × DZSChunkHeader) :=
  mapSet acc r.1 ⟨r.1, r.2.1, r.2.2⟩

theorem parseDZSHeadersLoop_records (buffer : List Nat) :
    ∀ (n idx : Nat) (m m' : List (List Nat × DZSChunkHeader)),
      parseDZSHeadersLoop buffer m idx n = some m' →
      ∃ recs, dzsRecords buffer idx n = some recs ∧ m' = recs.foldl dzsStep m := by
  intro n
  induction n with
  | zero =>
    intro idx m m' h
    refine ⟨[], rfl, ?_⟩
    simpa [parseDZSHeadersLoop] using h.symm
  | succ n ih =>
    intro idx m m' h
    rw [parseDZSHeadersLoop] at h
    simp only [Option.bind_eq_bind, Option.bind_eq_some] at h
    obtain ⟨type, htype, numEntries, hnum, offs, hoffs, hrec⟩ := h
    obtain ⟨recs, hrecs, hfold⟩ := ih (idx + 12) _ m' hrec
    refine ⟨(type, numEntries, offs) :: recs, ?_, ?_⟩
    · rw [dzsRecords]
      simp [htype, hnum, hoffs, hrecs]
    · simpa [dzsStep] using hfold

theorem dzsRecords_length (buffer : List Nat) :
    ∀ (n idx : Nat) (recs : List (List Nat × Nat × Nat)),
      dzsRecords buffer idx n = some recs → recs.length = n := by
  intro n
  induction n with
  | zero =>
    intro idx recs h
    simp only [dzsRecords] at h
    simp [← Option.some_inj.mp h]
  | succ n ih =>
    intro idx recs h
    rw [dzsRecords] at h
    simp only [Option.bind_eq_bind, Option.bind_eq_some, Option.pure_def,
      Option.some_inj] at h
    obtain ⟨type, _, numEntries, _, offs, _, rest, hrest, hcons⟩ := h
    have := ih (idx + 12) rest hrest
    simp [← hcons, this]

theorem dzsRecords_get? (buffer : List Nat) :
    ∀ (n idx : Nat) (recs : List (List Nat × Nat × Nat)),
      dzsRecords buffer idx n = some recs →
      ∀ i : Nat, i < n →
        ∃ t c o, readString buffer (idx + 12 * i) 4 = some t ∧
          getUint32BE buffer (idx + 12 * i + 4) = some c ∧
          getUint32BE buffer (idx + 12 * i + 8) = some o ∧
          recs.get? i = some (t, c, o) := by
  intro n
  induction n with
  | zero =>
    intro idx recs _ i hi
    omega
  | succ n ih =>
    intro idx recs h i hi
    rw [dzsRecords] at h
    simp only [Option.bind_eq_bind, Option.bind_eq_some, Option.pure_def,
      Option.some_inj] at h
    obtain ⟨type, htype, numEntries, hnum, offs, hoffs, rest, hrest, hcons⟩ := h
    match i with
    | 0 =>
      refine ⟨type, numEntries, offs, ?_, ?_, ?_, ?_⟩
      · simpa using htype
      · simpa using hnum
      · simpa using hoffs
      · simp [← hcons]
    | i + 1 =>
      obtain ⟨t, c, o, h1, h2, h3, h4⟩ := ih (idx + 12) rest hrest i (by omega)
      refine ⟨t, c, o, ?_, ?_, ?_, ?_⟩
      · rw [show idx + 12 * (i + 1) = idx + 12 + 12 * i by ring]
        exact h1
      · rw [show idx + 12 * (i + 1) + 4 = idx + 12 + 12 * i + 4 by ring]
        exact h2
      · rw [show idx + 12 * (i + 1) + 8 = idx + 12 + 12 * i + 8 by ring]
        exact h3
      · rw [← hcons, List.get?_cons_succ]
        exact h4

theorem mapGet_foldl_dzsStep :
    ∀ (recs : List (List Nat × Nat × Nat)) (m : List (List Nat × DZSChunkHeader))
      (t : List Nat),
      mapGet (recs.foldl dzsStep m) t =
        match recs.reverse.find? (fun r => r.1 == t) with
        | some r => some ⟨r.1, r.2.1, r.2.2⟩
        | none => mapGet m t := by
  intro recs
  induction recs with
  | nil =>
    intro m t
    simp
  | cons r rs ih =>
    intro m t
    rw [List.foldl_cons, ih (dzsStep m r) t, List.reverse_cons, List.find?_append]
    cases hfind : rs.reverse.find? (fun r => r.1 == t) with
    | some r' => simp [hfind]
    | none =>
      simp only [hfind, Option.none_orElse]
      by_cases ht : t = r.1
      · rw [List.find?_cons_of_pos _ (by simp [ht])]
        simp [dzsStep, mapGet_mapSet, ht]
      · rw [List.find?_cons_of_neg _ (by simpa using Ne.symm ht)]
        simp only [List.find?_nil]
        simp [dzsStep, mapGet_mapSet, ht]

theorem foldl_dzsStep_length :
    ∀ (recs : List (List Nat × Nat × Nat)) (m : List (List Nat × DZSChunkHeader)),
      (recs.foldl dzsStep m).length ≤ m.length + recs.length := by
  intro recs
  induction recs with
  | nil => simp
  | cons r rs ih =>
    intro m
    rw [List.foldl_cons]
    calc (rs.foldl dzsStep (dzsStep m r)).length
        ≤ (dzsStep m r).length + rs.length := ih _
      _ ≤ m.length + 1 + rs.length := by
          have := mapSet_length m r.1 (⟨r.1, r.2.1, r.2.2⟩ : DZSChunkHeader)
          simp only [dzsStep]
          omega
      _ = m.length + (r :: rs).length := by simp; ring

/-- C6: a successful `parseDZSHeaders` run reads a `u32` chunk count at
offset 0 and exactly that many 12-byte records starting at offset 4, maps
each record's type string to its entry count (`u32` at record offset 4) and
data offset (`u32` at record offset 8), resolves duplicate types in favour
of the last record, and yields at most `chunkCount` entries. -/
theorem c6_parseDZSHeaders (buffer : List Nat) (m : List (List Nat × DZSChunkHeader))
    (h : parseDZSHeaders buffer = some m) :
    ∃ chunkCount recs,
      getUint32BE buffer 0 = some chunkCount ∧
      dzsRecords buffer 4 chunkCount = some recs ∧
      recs.length = chunkCount ∧
      (∀ i : Nat, i < chunkCount →
        ∃ t c o, readString buffer (4 + 12 * i) 4 = some t ∧
          getUint32BE buffer (4 + 12 * i + 4) = some c ∧
          getUint32BE buffer (4 + 12 * i + 8) = some o ∧
          recs.get? i = some (t, c, o)) ∧
      (∀ t : List Nat, mapGet m t =
        match recs.reverse.find? (fun r => r.1 == t) with
        | some r => some ⟨r.1, r.2.1, r.2.2⟩
        | none => none) ∧
      m.length ≤ chunkCount := by
  unfold parseDZSHeaders at h
  simp only [Option.bind_eq_bind, Option.bind_eq_some] at h
  obtain ⟨chunkCount, hcc, hloop⟩ := h
  obtain ⟨recs, hrecs, hfold⟩ := parseDZSHeadersLoop_records buffer chunkCount 4 [] m hloop
  have hlen := dzsRecords_length buffer chunkCount 4 recs hrecs
  refine ⟨chunkCount, recs, hcc, hrecs, hlen,
    dzsRecords_get? buffer chunkCount 4 recs hrecs, ?_, ?_⟩
  · intro t
    rw [hfold, mapGet_foldl_dzsStep recs [] t]
    cases hf : recs.reverse.find? (fun r => r.1 == t) <;> simp [mapGet]
  · rw [hfold]
    have := foldl_dzsStep_length recs []
    simp only [List.length_nil, Nat.zero_add, hlen] at this
    exact this

/-- Witness for C6 on a concrete one-chunk buffer. -/
theorem c6_witness :
    ∃ chunkCount recs,
      getUint32BE [0, 0, 0, 1, 65, 65, 65, 65, 0, 0, 0, 5, 0, 0, 0, 7] 0 = some chunkCount ∧
      dzsRecords [0, 0, 0, 1, 65, 65, 65, 65, 0, 0, 0, 5, 0, 0, 0, 7] 4 chunkCount =
        some recs ∧
      recs.length = chunkCount ∧
      (∀ i : Nat, i < chunkCount →
        ∃ t c o, readString [0, 0, 0, 1, 65, 65, 65, 65, 0, 0, 0, 5, 0, 0, 0, 7]
            (4 + 12 * i) 4 = some t ∧
          getUint32BE [0, 0, 0, 1, 65, 65, 65, 65, 0, 0, 0, 5, 0, 0, 0, 7]
            (4 + 12 * i + 4) = some c ∧
          getUint32BE [0, 0, 0, 1, 65, 65, 65, 65, 0, 0, 0, 5, 0, 0, 0, 7]
            (4 + 12 * i + 8) = some o ∧
          recs.get? i = some (t, c, o)) ∧
      (∀ t : List Nat, mapGet [([65, 65, 65, 65], (⟨[65, 65, 65, 65], 5, 7⟩ : DZSChunkHeader))] t =
        match recs.reverse.find? (fun r => r.1 == t) with
        | some r => some ⟨r.1, r.2.1, r.2.2⟩
        | none => none) ∧
      ([([65, 65, 65, 65], (⟨[65, 65, 65, 65], 5, 7⟩ : DZSChunkHeader))] : List _).length ≤
        chunkCount :=
  c6_parseDZSHeaders [0, 0, 0, 1, 65, 65, 65, 65, 0, 0, 0, 5, 0, 0, 0, 7]
    [([65, 65, 65, 65], ⟨[65, 65, 65, 65], 5, 7⟩)] (by decide)

/-! ## src/j3d/ztp_scenes.ts — `getRoomListFromDZS` (C7) -/

/-- The chunk-table loop of `getRoomListFromDZS`, which stores
`{ offs, count }` per type string (the same 12-byte records as
`parseDZSHeaders`). -/
def roomChunkLoop (buffer : List Nat) (m : List (List Nat × (Nat × Nat)))
    (idx : Nat) : Nat → Option (List (List Nat × (Nat × Nat)))
  | 0 => some m
  | n + 1 => do
    let type ← readString buffer idx 4
    let count ← getUint32BE buffer (idx + 4)
    let offs ← getUint32BE buffer (idx + 8)
    roomChunkLoop buffer (mapSet m type (offs, count)) (idx + 12) n

/-- The RTBL loop of `getRoomListFromDZS`: for each table entry, read the
entry offset, skip it when its room-table count byte is zero, and otherwise
add the first room byte masked with `0x3F` to the set. -/
def rtblLoop (buffer : List Nat) (rtblOffs : Nat) (acc : List Nat) (i : Nat) :
    Nat → Option (List Nat)
  | 0 => some acc
  | n + 1 => do
    let rtblEntryOffs ← getUint32BE buffer (rtblOffs + i * 4)
    let roomTableCount ← getUint8 buffer rtblEntryOffs
    if roomTableCount = 0 then
      rtblLoop buffer rtblOffs acc (i + 1) n
    else do
      let roomTableOffs ← getUint32BE buffer (rtblEntryOffs + 4)
      let roomByte ← getUint8 buffer roomTableOffs
      rtblLoop buffer rtblOffs (setAdd acc (roomByte &&& 0x3F)) (i + 1) n

/-- `getRoomListFromDZS(buffer)`: parse the chunk table, look up the `RTBL`
chunk (the destructuring throws when it is missing), then walk its entries
collecting masked room ids into a `Set`, returned in insertion order. -/
def getRoomListFromDZS (buffer : List Nat) : Option (List Nat) := do
  let chunkCount ← getUint32BE buffer 0
  let chunkOffsets ← roomChunkLoop buffer [] 4 chunkCount
  let rtbl ← mapGet chunkOffsets (ascii "RTBL")
  rtblLoop buffer rtbl.1 [] 0 rtbl.2

/-- What it means for a room id to originate in a nonzero-count RTBL entry
of the table at `rtblOffs`. -/
def roomFromRTBL (buffer : List Nat) (rtblOffs : Nat) (x : Nat) : Prop :=
  ∃ j entryOffs cnt tblOffs roomByte,
    getUint32BE buffer (rtblOffs + j * 4) = some entryOffs ∧
    getUint8 buffer entryOffs = some cnt ∧
    cnt ≠ 0 ∧
    getUint32BE buffer (entryOffs + 4) = some tblOffs ∧
    getUint8 buffer tblOffs = some roomByte ∧
    x = roomByte &&& 0x3F

theorem setAdd_nodup (l : List Nat) (x : Nat) (h : l.Nodup) : (setAdd l x).Nodup := by
  unfold setAdd
  split
  · exact h
  · simpa using List.Nodup.concat (by assumption) h

theorem setAdd_mem (l : List Nat) (x y : Nat) (h : y ∈ setAdd l x) : y ∈ l ∨ y = x := by
  unfold setAdd at h
  split at h
  · exact Or.inl h
  · simpa using h

theorem rtblLoop_invariant (buffer : List Nat) (rtblOffs : Nat) :
    ∀ (n i : Nat) (acc l : List Nat),
      acc.Nodup → (∀ x ∈ acc, x ≤ 63 ∧ roomFromRTBL buffer rtblOffs x) →
      rtblLoop buffer rtblOffs acc i n = some l →
      l.Nodup ∧ ∀ x ∈ l, x ≤ 63 ∧ roomFromRTBL buffer rtblOffs x := by
  intro n
  induction n with
  | zero =>
    intro i acc l hnd hP h
    simp only [rtblLoop] at h
    obtain rfl := Option.some_inj.mp h
    exact ⟨hnd, hP⟩
  | succ n ih =>
    intro i acc l hnd hP h
    rw [rtblLoop] at h
    simp only [Option.bind_eq_bind, Option.bind_eq_some] at h
    obtain ⟨entryOffs, hentry, cnt, hcnt, hrest⟩ := h
    split at hrest
    · exact ih (i + 1) acc l hnd hP hrest
    · simp only [Option.bind_eq_bind, Option.bind_eq_some] at hrest
      obtain ⟨tblOffs, htbl, roomByte, hbyte, hloop⟩ := hrest
      refine ih (i + 1) _ l (setAdd_nodup _ _ hnd) ?_ hloop
      intro x hx
      rcases setAdd_mem _ _ _ hx with hmem | rfl
      · exact hP x hmem
      · refine ⟨Nat.and_le_right, i, entryOffs, cnt, tblOffs, roomByte,
          hentry, hcnt, by assumption, htbl, hbyte, rfl⟩

/-- C7: every element of a successful `getRoomListFromDZS` result is a room
id in `0 … 63` (masked with `0x3F`), no element repeats, and every element
comes from an RTBL entry whose room-table count byte is nonzero. -/
theorem c7_getRoomListFromDZS (buffer : List Nat) (l : List Nat)
    (h : getRoomListFromDZS buffer = some l) :
    l.Nodup ∧
    (∀ x ∈ l, x ≤ 63) ∧
    ∃ chunkCount chunkOffsets rtblOffs rtblCount,
      getUint32BE buffer 0 = some chunkCount ∧
      roomChunkLoop buffer [] 4 chunkCount = some chunkOffsets ∧
      mapGet chunkOffsets (ascii "RTBL") = some (rtblOffs, rtblCount) ∧
      ∀ x ∈ l, roomFromRTBL buffer rtblOffs x := by
  unfold getRoomListFromDZS at h
  simp only [Option.bind_eq_bind, Option.bind_eq_some] at h
  obtain ⟨chunkCount, hcc, chunkOffsets, hloop, rtbl, hrtbl, hmain⟩ := h
  have hinv := rtblLoop_invariant buffer rtbl.1 rtbl.2 0 [] l (by simp) (by simp) hmain
  exact ⟨hinv.1, fun x hx => (hinv.2 x hx).1,
    chunkCount, chunkOffsets, rtbl.1, rtbl.2, hcc, hloop, hrtbl,
    fun x hx => (hinv.2 x hx).2⟩

/-- A concrete DZS buffer for the C7 witness: one chunk (`RTBL`, count 1,
data offset 16); the entry pointer at 16 points to 20, whose count byte is 1
and whose room-table pointer (at 24) points to a room byte `0x7F` at 28. -/
def c7buf : List Nat :=
  [0, 0, 0, 1, 82, 84, 66, 76, 0, 0, 0, 1, 0, 0, 0, 16,
   0, 0, 0, 20, 1, 0, 0, 0, 0, 0, 0, 28, 0x7F]

/-- Witness for C7 on a concrete buffer: one chunk (`RTBL`, count 1, offset
16); its entry pointer at 16 points to 20, whose count byte is 1 and whose
room-table pointer points to a room byte `0x7F`, masked to `0x3F`. -/
theorem c7_witness :
    ([0x3F] : List Nat).Nodup ∧
    (∀ x ∈ ([0x3F] : List Nat), x ≤ 63) ∧
    ∃ chunkCount chunkOffsets rtblOffs rtblCount,
      getUint32BE c7buf 0 = some chunkCount ∧
      roomChunkLoop c7buf [] 4 chunkCount = some chunkOffsets ∧
      mapGet chunkOffsets (ascii "RTBL") = some (rtblOffs, rtblCount) ∧
      ∀ x ∈ ([0x3F] : List Nat), roomFromRTBL c7buf rtblOffs x :=
  c7_getRoomListFromDZS c7buf [0x3F] (by decide)

/-! ## Render pass order (C1): `TwilightPrincessRenderer.render` and
`SunshineRenderer.render` -/

/-- A render instance; only its filter key (ZTP) / pass mask (SMS) matters
for pass separation. -/
structure RenderInst where
  filterKey : Nat
deriving DecidableEq, Repr

/-- The pass renderers created by the two `render` methods. -/
inductive RenderPassId where
  | skyboxPass
  | opaquePass
  | indTexPass
deriving DecidableEq, Repr

/-- The observable GPU-facing events of a `render` call. -/
inductive RenderEvent where
  | createPass (p : RenderPassId)
  | draw (filterKey : Nat) (p : RenderPassId)
  | endPass (p : RenderPassId)
  | submitPass (p : RenderPassId)
deriving DecidableEq, Repr

/-- Modelled from the spec: `GfxRenderInstManager.setVisibleByFilterKeyExact`
(the render-graph abstraction of "render instances, filter keys for pass
separation"; `src/gfx/render/` is not among the provided sources) marks
exactly the instances whose filter key equals the given key visible; this
returns that visible subset. -/
def setVisibleByFilterKeyExact (insts : List RenderInst) (key : Nat) : List RenderInst :=
  insts.filter (fun inst => inst.filterKey == key)

/-- Modelled from the spec: `GfxRenderInstManager.hasAnyVisible` over the
currently visible subset. -/
def hasAnyVisible (visible : List RenderInst) : Bool :=
  !visible.isEmpty

/-- Modelled from the spec: `GfxRenderInstManager.drawOnPassRenderer` draws
each currently visible instance on the given pass renderer. -/
def drawOnPassRenderer (visible : List RenderInst) (p : RenderPassId) : List RenderEvent :=
  visible.map (fun inst => RenderEvent.draw inst.filterKey p)

/-- `TwilightPrincessRenderer.render`: skybox pass, opaque pass, an indirect
pass created only when some `INDIRECT`-keyed instance is visible, then the
transparent instances on the last pass renderer. -/
def ztpRender (insts : List RenderInst) : List RenderEvent :=
  let skyboxEvents :=
    [RenderEvent.createPass RenderPassId.skyboxPass] ++
    drawOnPassRenderer (setVisibleByFilterKeyExact insts ZTPPass.SKYBOX)
      RenderPassId.skyboxPass ++
    [RenderEvent.endPass RenderPassId.skyboxPass,
     RenderEvent.submitPass RenderPassId.skyboxPass]
  let opaqueEvents :=
    [RenderEvent.createPass RenderPassId.opaquePass] ++
    drawOnPassRenderer (setVisibleByFilterKeyExact insts ZTPPass.OPAQUE)
      RenderPassId.opaquePass
  if hasAnyVisible (setVisibleByFilterKeyExact insts ZTPPass.INDIRECT) then
    skyboxEvents ++ opaqueEvents ++
    [RenderEvent.endPass RenderPassId.opaquePass,
     RenderEvent.submitPass RenderPassId.opaquePass,
     RenderEvent.createPass RenderPassId.indTexPass] ++
    drawOnPassRenderer (setVisibleByFilterKeyExact insts ZTPPass.INDIRECT)
      RenderPassId.indTexPass ++
    drawOnPassRenderer (setVisibleByFilterKeyExact insts ZTPPass.TRANSPARENT)
      RenderPassId.indTexPass
  else
    skyboxEvents ++ opaqueEvents ++
    drawOnPassRenderer (setVisibleByFilterKeyExact insts ZTPPass.TRANSPARENT)
      RenderPassId.opaquePass

/-- The `SMSPass` filter-key bits (`1 << 0` … `1 << 3`). -/
def SMSPass.SKYBOX : Nat := 1
/-- `SMSPass.OPAQUE = 1 << 1`. -/
def SMSPass.OPAQUE : Nat := 2
/-- `SMSPass.INDIRECT = 1 << 2`. -/
def SMSPass.INDIRECT : Nat := 4
/-- `SMSPass.TRANSPARENT = 1 << 3`. -/
def SMSPass.TRANSPARENT : Nat := 8

/-- Modelled from the spec: `GfxRenderInstViewRenderer.executeOnPass` (also
from the out-of-scope `src/gfx/render/`) draws the instances whose pass mask
overlaps the given pass bit on the given pass renderer. -/
def executeOnPass (insts : List RenderInst) (passMask : Nat) (p : RenderPassId) :
    List RenderEvent :=
  (insts.filter (fun inst => inst.filterKey &&& passMask != 0)).map
    (fun inst => RenderEvent.draw inst.filterKey p)

/-- Modelled from the spec: `GfxRenderInstViewRenderer.hasAnyVisible` for a
pass bit. -/
def hasAnyVisibleOnPass (insts : List RenderInst) (passMask : Nat) : Bool :=
  insts.any (fun inst => inst.filterKey &&& passMask != 0)

/-- `SunshineRenderer.render`: the same pass structure as
`TwilightPrincessRenderer.render`, with bitmask pass separation. -/
def smsRender (insts : List RenderInst) : List RenderEvent :=
  [RenderEvent.createPass RenderPassId.skyboxPass] ++
  executeOnPass insts SMSPass.SKYBOX RenderPassId.skyboxPass ++
  [RenderEvent.endPass RenderPassId.skyboxPass,
   RenderEvent.submitPass RenderPassId.skyboxPass,
   RenderEvent.createPass RenderPassId.opaquePass] ++
  executeOnPass insts SMSPass.OPAQUE RenderPassId.opaquePass ++
  (if hasAnyVisibleOnPass insts SMSPass.INDIRECT then
    [RenderEvent.endPass RenderPassId.opaquePass,
     RenderEvent.submitPass RenderPassId.opaquePass,
     RenderEvent.createPass RenderPassId.indTexPass] ++
    executeOnPass insts SMSPass.INDIRECT RenderPassId.indTexPass ++
    executeOnPass insts SMSPass.TRANSPARENT RenderPassId.indTexPass
  else
    executeOnPass insts SMSPass.TRANSPARENT RenderPassId.opaquePass)

/-- Whether a render event is a draw. -/
def isDrawEvent : RenderEvent → Bool
  | RenderEvent.draw _ _ => true
  | _ => false

/-- The subsequence of draw events of a trace. -/
def drawEventsOf (events : List RenderEvent) : List RenderEvent :=
  events.filter isDrawEvent

theorem drawEventsOf_append (a b : List RenderEvent) :
    drawEventsOf (a ++ b) = drawEventsOf a ++ drawEventsOf b :=
  List.filter_append a b

theorem drawEventsOf_drawOnPassRenderer (v : List RenderInst) (p : RenderPassId) :
    drawEventsOf (drawOnPassRenderer v p) = drawOnPassRenderer v p := by
  induction v with
  | nil => rfl
  | cons i v ih => simp [drawOnPassRenderer, drawEventsOf, isDrawEvent]

theorem drawEventsOf_executeOnPass (insts : List RenderInst) (mask : Nat) (p : RenderPassId) :
    drawEventsOf (executeOnPass insts mask p) = executeOnPass insts mask p := by
  unfold executeOnPass
  induction insts.filter (fun inst => inst.filterKey &&& mask != 0) with
  | nil => rfl
  | cons i v ih => simp [drawEventsOf, isDrawEvent]

theorem filter_isDraw_drawOnPassRenderer (v : List RenderInst) (p : RenderPassId) :
    List.filter isDrawEvent (drawOnPassRenderer v p) = drawOnPassRenderer v p :=
  drawEventsOf_drawOnPassRenderer v p

theorem filter_isDraw_executeOnPass (insts : List RenderInst) (mask : Nat) (p : RenderPassId) :
    List.filter isDrawEvent (executeOnPass insts mask p) = executeOnPass insts mask p :=
  drawEventsOf_executeOnPass insts mask p

theorem createPass_not_mem_drawOnPassRenderer (v : List RenderInst) (p q : RenderPassId) :
    RenderEvent.createPass q ∉ drawOnPassRenderer v p := by
  intro h
  simp only [drawOnPassRenderer, List.mem_map] at h
  obtain ⟨_, _, h⟩ := h
  exact RenderEvent.noConfusion h

theorem createPass_not_mem_executeOnPass (insts : List RenderInst) (mask : Nat)
    (p q : RenderPassId) : RenderEvent.createPass q ∉ executeOnPass insts mask p := by
  intro h
  simp only [executeOnPass, List.mem_map] at h
  obtain ⟨_, _, h⟩ := h
  exact RenderEvent.noConfusion h

theorem isDrawEvent_createPass (p : RenderPassId) :
    isDrawEvent (RenderEvent.createPass p) = false := rfl

theorem isDrawEvent_endPass (p : RenderPassId) :
    isDrawEvent (RenderEvent.endPass p) = false := rfl

theorem isDrawEvent_submitPass (p : RenderPassId) :
    isDrawEvent (RenderEvent.submitPass p) = false := rfl

/-- C1: in both `TwilightPrincessRenderer.render` and
`SunshineRenderer.render`, the draw events occur in exactly the order
skybox, opaque, indirect, transparent; the indirect pass renderer is
created precisely when some instance with the `INDIRECT` filter key is
visible; and with no such instance the transparent instances are drawn on
the same pass renderer as the opaque ones. -/
theorem c1_render_pass_order :
    (∀ insts : List RenderInst,
      drawEventsOf (ztpRender insts) =
        drawOnPassRenderer (setVisibleByFilterKeyExact insts ZTPPass.SKYBOX)
          RenderPassId.skyboxPass ++
        drawOnPassRenderer (setVisibleByFilterKeyExact insts ZTPPass.OPAQUE)
          RenderPassId.opaquePass ++
        (if hasAnyVisible (setVisibleByFilterKeyExact insts ZTPPass.INDIRECT) then
          drawOnPassRenderer (setVisibleByFilterKeyExact insts ZTPPass.INDIRECT)
            RenderPassId.indTexPass
        else []) ++
        drawOnPassRenderer (setVisibleByFilterKeyExact insts ZTPPass.TRANSPARENT)
          (if hasAnyVisible (setVisibleByFilterKeyExact insts ZTPPass.INDIRECT) then
            RenderPassId.indTexPass
          else RenderPassId.opaquePass) ∧
      (RenderEvent.createPass RenderPassId.indTexPass ∈ ztpRender insts ↔
        hasAnyVisible (setVisibleByFilterKeyExact insts ZTPPass.INDIRECT) = true)) ∧
    (∀ insts : List RenderInst,
      drawEventsOf (smsRender insts) =
        executeOnPass insts SMSPass.SKYBOX RenderPassId.skyboxPass ++
        executeOnPass insts SMSPass.OPAQUE RenderPassId.opaquePass ++
        (if hasAnyVisibleOnPass insts SMSPass.INDIRECT then
          executeOnPass insts SMSPass.INDIRECT RenderPassId.indTexPass
        else []) ++
        executeOnPass insts SMSPass.TRANSPARENT
          (if hasAnyVisibleOnPass insts SMSPass.INDIRECT then
            RenderPassId.indTexPass
          else RenderPassId.opaquePass) ∧
      (RenderEvent.createPass RenderPassId.indTexPass ∈ smsRender insts ↔
        hasAnyVisibleOnPass insts SMSPass.INDIRECT = true)) := by
  constructor
  · intro insts
    by_cases hind : hasAnyVisible (setVisibleByFilterKeyExact insts ZTPPass.INDIRECT) = true
    · constructor
      · simp only [ztpRender, hind, if_true]
        simp only [drawEventsOf, List.filter_append, List.filter_cons, List.filter_nil,
          isDrawEvent_createPass, isDrawEvent_endPass, isDrawEvent_submitPass,
          Bool.false_eq_true, if_false, filter_isDraw_drawOnPassRenderer]
        simp
      · simp [ztpRender, hind, List.mem_append]
    · have hind' : hasAnyVisible (setVisibleByFilterKeyExact insts ZTPPass.INDIRECT) = false :=
        by simpa using hind
      constructor
      · simp only [ztpRender, hind', Bool.false_eq_true, if_false]
        simp only [drawEventsOf, List.filter_append, List.filter_cons, List.filter_nil,
          isDrawEvent_createPass, isDrawEvent_endPass, isDrawEvent_submitPass,
          Bool.false_eq_true, if_false, filter_isDraw_drawOnPassRenderer]
        simp
      · rw [hind']
        simp only [Bool.false_eq_true, iff_false]
        simp [ztpRender, hind', createPass_not_mem_drawOnPassRenderer]
  · intro insts
    by_cases hind : hasAnyVisibleOnPass insts SMSPass.INDIRECT = true
    · constructor
      · simp only [smsRender, hind, if_true]
        simp only [drawEventsOf, List.filter_append, List.filter_cons, List.filter_nil,
          isDrawEvent_createPass, isDrawEvent_endPass, isDrawEvent_submitPass,
          Bool.false_eq_true, if_false, filter_isDraw_executeOnPass]
        simp
      · simp [smsRender, hind, List.mem_append]
    · have hind' : hasAnyVisibleOnPass insts SMSPass.INDIRECT = false := by simpa using hind
      constructor
      · simp only [smsRender, hind', Bool.false_eq_true, if_false]
        simp only [drawEventsOf, List.filter_append, List.filter_cons, List.filter_nil,
          isDrawEvent_createPass, isDrawEvent_endPass, isDrawEvent_submitPass,
          Bool.false_eq_true, if_false, filter_isDraw_executeOnPass]
        simp
      · rw [hind']
        simp only [Bool.false_eq_true, iff_false]
        simp [smsRender, hind', createPass_not_mem_executeOnPass]

/-! ## `HashMap` (C10) -/

/-- One bucket of the hash map: parallel `keys` and `values` arrays. -/
structure HashBucket (K V : Type) where
  keys : List K
  values : List V

/-- `NUM_BUCKETS = 16`. -/
def NUM_BUCKETS : Nat := 16

/-- The `HashMap` class: a fixed array of buckets plus the key-equality and
key-hash functions passed to the constructor. The hash returns `Int`
because JavaScript bit arithmetic (as in `hashCodeNumbers`) can produce
negative numbers. -/
structure HashMap (K V : Type) where
  buckets : List (HashBucket K V)
  keyEqualFunc : K → K → Bool
  keyHashFunc : K → Int

/-- `nullHashFunc`: always 0. -/
def nullHashFunc {K : Type} (_ : K) : Int := 0

/-- The `HashMap` constructor: `NUM_BUCKETS` empty buckets. -/
def mkHashMap {K V : Type} (keyEqualFunc : K → K → Bool) (keyHashFunc : K → Int) :
    HashMap K V :=
  ⟨List.replicate NUM_BUCKETS ⟨[], []⟩, keyEqualFunc, keyHashFunc⟩

/-- `findBucketIndex(bucket, k)`: the loop walks the keys from the last
index downwards and returns the first index whose key is `keyEqualFunc`-equal
to `k`; the `-1` sentinel is modelled as `none`. This recursion prefers a
match in the tail (the higher indices), which is exactly the backwards
scan. -/
def findBucketIndex {K : Type} (eq : K → K → Bool) (k : K) : List K → Option Nat
  | [] => none
  | x :: xs =>
    match findBucketIndex eq k xs with
    | some i => some (i + 1)
    | none => if eq k x then some 0 else none

/-- `findBucket(k)`: `this.buckets[this.keyHashFunc(k) % NUM_BUCKETS]`.
JavaScript `%` keeps the sign of the dividend, so a negative hash indexes a
missing property and every later bucket access throws (`none`); a
non-negative hash reduces modulo 16. The bucket index is returned alongside
so updates can be written back. -/
def findBucket {K V : Type} (m : HashMap K V) (k : K) : Option (Nat × HashBucket K V) :=
  if 0 ≤ m.keyHashFunc k then
    match m.buckets.get? ((m.keyHashFunc k).toNat % NUM_BUCKETS) with
    | some bucket => some ((m.keyHashFunc k).toNat % NUM_BUCKETS, bucket)
    | none => none
  else
    none

namespace HashMap

/-- `HashMap.prototype.get(k)`: `null` (the inner `none`) when the key is
absent, otherwise the stored value. -/
def get {K V : Type} (m : HashMap K V) (k : K) : Option (Option V) :=
  match findBucket m k with
  | none => none
  | some (_, bucket) =>
    match findBucketIndex m.keyEqualFunc k bucket.keys with
    | none => some none
    | some bi => some (bucket.values.get? bi)

/-- `HashMap.prototype.insert(k, v)`: overwrite the slot found by
`findBucketIndex`, or append at `bucket.keys.length` when the key is absent
(an assignment one past the end of a JavaScript array appends). -/
def insert {K V : Type} (m : HashMap K V) (k : K) (v : V) : Option (HashMap K V) :=
  match findBucket m k with
  | none => none
  | some (bi, bucket) =>
    let bucket' :=
      match findBucketIndex m.keyEqualFunc k bucket.keys with
      | some i => HashBucket.mk (bucket.keys.set i k) (bucket.values.set i v)
      | none => HashBucket.mk (bucket.keys ++ [k]) (bucket.values ++ [v])
    some { m with buckets := m.buckets.set bi bucket' }

/-- `HashMap.prototype.delete(k)`: splice the found slot out of both
parallel arrays; no effect when the key is absent. -/
def delete {K V : Type} (m : HashMap K V) (k : K) : Option (HashMap K V) :=
  match findBucket m k with
  | none => none
  | some (bi, bucket) =>
    match findBucketIndex m.keyEqualFunc k bucket.keys with
    | none => some m
    | some i =>
      let bucket' := HashBucket.mk (bucket.keys.eraseIdx i) (bucket.values.eraseIdx i)
      some { m with buckets := m.buckets.set bi bucket' }

/-- The representation invariant maintained by the class: 16 buckets whose
parallel arrays have equal length. -/
def wellFormed {K V : Type} (m : HashMap K V) : Prop :=
  m.buckets.length = NUM_BUCKETS ∧ ∀ b ∈ m.buckets, b.keys.length = b.values.length

end HashMap


theorem findBucketIndex_cons_some {K : Type} {eq : K → K → Bool} {k x : K} {xs : List K}
    {j : Nat} (hxs : findBucketIndex eq k xs = some j) :
    findBucketIndex eq k (x :: xs) = some (j + 1) := by
  rw [findBucketIndex, hxs]

theorem findBucketIndex_cons_none {K : Type} {eq : K → K → Bool} {k x : K} {xs : List K}
    (hxs : findBucketIndex eq k xs = none) :
    findBucketIndex eq k (x :: xs) = if eq k x then some 0 else none := by
  rw [findBucketIndex, hxs]

theorem findBucketIndex_lt {K : Type} (eq : K → K → Bool) (k : K) :
    ∀ (l : List K) (i : Nat), findBucketIndex eq k l = some i → i < l.length := by
  intro l
  induction l with
  | nil => intro i h; simp [findBucketIndex] at h
  | cons x xs ih =>
    intro i h
    cases hxs : findBucketIndex eq k xs with
    | some j =>
      rw [findBucketIndex_cons_some hxs] at h
      obtain rfl := Option.some_inj.mp h
      have := ih j hxs
      simp only [List.length_cons]
      omega
    | none =>
      rw [findBucketIndex_cons_none hxs] at h
      split at h
      · obtain rfl := Option.some_inj.mp h
        simp
      · exact absurd h (by simp)

theorem findBucketIndex_none {K : Type} (eq : K → K → Bool) (k : K) :
    ∀ l : List K, findBucketIndex eq k l = none ↔ ∀ x ∈ l, eq k x = false := by
  intro l
  induction l with
  | nil => simp [findBucketIndex]
  | cons x xs ih =>
    constructor
    · intro h
      cases hxs : findBucketIndex eq k xs with
      | some j => rw [findBucketIndex_cons_some hxs] at h; exact absurd h (by simp)
      | none =>
        rw [findBucketIndex_cons_none hxs] at h
        intro y hy
        rcases List.mem_cons.mp hy with rfl | hy
        · rcases Bool.eq_false_or_eq_true (eq k y) with hx | hx
          · rw [if_pos hx] at h
            exact absurd h (by simp)
          · exact hx
        · exact (ih.mp hxs) y hy
    · intro h
      rw [findBucketIndex_cons_none (ih.mpr (fun y hy => h y (List.mem_cons_of_mem x hy)))]
      rw [if_neg (by simp [h x (List.mem_cons_self x xs)])]

theorem findBucketIndex_append_self {K : Type} (eq : K → K → Bool) (k : K)
    (hkk : eq k k = true) : ∀ l : List K, findBucketIndex eq k (l ++ [k]) = some l.length := by
  intro l
  induction l with
  | nil => simp [findBucketIndex, hkk]
  | cons x xs ih =>
    rw [List.cons_append, findBucketIndex_cons_some ih]
    simp

theorem findBucketIndex_set_self {K : Type} (eq : K → K → Bool) (k : K)
    (hkk : eq k k = true) :
    ∀ (l : List K) (i : Nat), findBucketIndex eq k l = some i →
      findBucketIndex eq k (l.set i k) = some i := by
  intro l
  induction l with
  | nil => intro i h; simp [findBucketIndex] at h
  | cons x xs ih =>
    intro i h
    cases hxs : findBucketIndex eq k xs with
    | some j =>
      rw [findBucketIndex_cons_some hxs] at h
      obtain rfl := Option.some_inj.mp h
      rw [List.set_cons_succ, findBucketIndex_cons_some (ih j hxs)]
    | none =>
      rw [findBucketIndex_cons_none hxs] at h
      split at h
      · obtain rfl := Option.some_inj.mp h
        rw [List.set_cons_zero, findBucketIndex_cons_none hxs, if_pos hkk]
      · exact absurd h (by simp)

theorem findBucketIndex_some_match {K : Type} (eq : K → K → Bool) (k : K) :
    ∀ (l : List K) (i : Nat), findBucketIndex eq k l = some i →
      ∃ x, l.get? i = some x ∧ eq k x = true := by
  intro l
  induction l with
  | nil => intro i h; simp [findBucketIndex] at h
  | cons x xs ih =>
    intro i h
    cases hxs : findBucketIndex eq k xs with
    | some j =>
      rw [findBucketIndex_cons_some hxs] at h
      obtain rfl := Option.some_inj.mp h
      obtain ⟨y, hy, hey⟩ := ih j hxs
      exact ⟨y, by simpa using hy, hey⟩
    | none =>
      rw [findBucketIndex_cons_none hxs] at h
      split at h
      · obtain rfl := Option.some_inj.mp h
        exact ⟨x, rfl, by assumption⟩
      · exact absurd h (by simp)

theorem countP_eraseIdx_of_get? {α : Type} (p : α → Bool) :
    ∀ (l : List α) (i : Nat) (x : α), l.get? i = some x → p x = true →
      (l.eraseIdx i).countP p + 1 = l.countP p := by
  intro l
  induction l with
  | nil => intro i x h; simp at h
  | cons a as ih =>
    intro i x h hp
    match i with
    | 0 =>
      obtain rfl : a = x := by simpa using h
      simp [List.eraseIdx, List.countP_cons, hp]
    | i + 1 =>
      have h' : as.get? i = some x := by simpa using h
      simp only [List.eraseIdx, List.countP_cons]
      have := ih i x h' hp
      omega

theorem get?_set_self {α : Type} :
    ∀ (l : List α) (i : Nat) (a : α), i < l.length → (l.set i a).get? i = some a := by
  intro l
  induction l with
  | nil => intro i a h; simp at h
  | cons x xs ih =>
    intro i a h
    match i with
    | 0 => simp
    | i + 1 =>
      simp only [List.set_cons_succ, List.get?_cons_succ]
      exact ih i a (by simpa using h)

theorem get?_append_singleton {α : Type} (l : List α) (a : α) :
    (l ++ [a]).get? l.length = some a := by
  simp [List.get?_eq_getElem?, List.getElem?_concat_length]

theorem findBucket_of_wf {K V : Type} (m : HashMap K V) (k : K)
    (hlen : m.buckets.length = NUM_BUCKETS) (hhash : 0 ≤ m.keyHashFunc k) :
    ∃ bi bucket, findBucket m k = some (bi, bucket) ∧ bi < NUM_BUCKETS ∧
      bi = (m.keyHashFunc k).toNat % NUM_BUCKETS ∧ m.buckets.get? bi = some bucket := by
  have hbi : (m.keyHashFunc k).toNat % NUM_BUCKETS < NUM_BUCKETS :=
    Nat.mod_lt _ (by norm_num [NUM_BUCKETS])
  have hlt : (m.keyHashFunc k).toNat % NUM_BUCKETS < m.buckets.length := by omega
  refine ⟨(m.keyHashFunc k).toNat % NUM_BUCKETS, m.buckets.get ⟨_, hlt⟩, ?_, hbi, rfl,
    (List.get?_eq_get hlt).symm ▸ rfl⟩
  unfold findBucket
  rw [if_pos hhash, List.get?_eq_get hlt]

/-- C10: on a `HashMap` whose hash is non-negative at `k` (as with
`nullHashFunc`) and whose equality function accepts `k` itself:
`get` after `insert(k, v)` returns `v`; inserting an already-present key
overwrites its slot in place without growing the bucket; and `get` after
`delete(k)` returns `null`, provided at most one slot of the bucket matches
`k` (as the insert/delete discipline maintains). -/
theorem c10_HashMap_operations (K V : Type) (m : HashMap K V) (k : K) (v : V)
    (hwf : m.wellFormed) (hhash : 0 ≤ m.keyHashFunc k)
    (hrefl : m.keyEqualFunc k k = true) :
    (∃ m', m.insert k v = some m' ∧ m'.get k = some (some v)) ∧
    (∀ bi bucket i, findBucket m k = some (bi, bucket) →
      findBucketIndex m.keyEqualFunc k bucket.keys = some i →
      ∃ m', m.insert k v = some m' ∧
        m'.buckets.get? bi =
          some (HashBucket.mk (bucket.keys.set i k) (bucket.values.set i v)) ∧
        (bucket.keys.set i k).length = bucket.keys.length ∧
        (bucket.values.set i v).length = bucket.values.length) ∧
    (∀ bi bucket, findBucket m k = some (bi, bucket) →
      bucket.keys.countP (fun x => m.keyEqualFunc k x) ≤ 1 →
      ∃ m', m.delete k = some m' ∧ m'.get k = some none) := by
  obtain ⟨hlen, hbuckets⟩ := hwf
  obtain ⟨bi, bucket, hfb, hbi, hbival, hget⟩ := findBucket_of_wf m k hlen hhash
  have hmem : bucket ∈ m.buckets := List.get?_mem hget
  have hkv : bucket.keys.length = bucket.values.length := hbuckets bucket hmem
  have hlt : bi < m.buckets.length := by omega
  refine ⟨?_, ?_, ?_⟩
  · cases hidx : findBucketIndex m.keyEqualFunc k bucket.keys with
    | none =>
      refine ⟨⟨m.buckets.set bi
        (HashBucket.mk (bucket.keys ++ [k]) (bucket.values ++ [v])),
        m.keyEqualFunc, m.keyHashFunc⟩, ?_, ?_⟩
      · simp only [HashMap.insert, hfb, hidx]
      · simp only [HashMap.get, findBucket]
        rw [if_pos hhash]
        rw [show ((m.keyHashFunc k).toNat % NUM_BUCKETS) = bi from hbival.symm]
        rw [get?_set_self m.buckets bi _ hlt]
        simp only
        rw [findBucketIndex_append_self m.keyEqualFunc k hrefl bucket.keys]
        dsimp only
        rw [show bucket.keys.length = bucket.values.length from hkv]
        rw [get?_append_singleton]
    | some i =>
      have hilt : i < bucket.keys.length := findBucketIndex_lt _ _ _ _ hidx
      refine ⟨⟨m.buckets.set bi
        (HashBucket.mk (bucket.keys.set i k) (bucket.values.set i v)),
        m.keyEqualFunc, m.keyHashFunc⟩, ?_, ?_⟩
      · simp only [HashMap.insert, hfb, hidx]
      · simp only [HashMap.get, findBucket]
        rw [if_pos hhash]
        rw [show ((m.keyHashFunc k).toNat % NUM_BUCKETS) = bi from hbival.symm]
        rw [get?_set_self m.buckets bi _ hlt]
        simp only
        rw [findBucketIndex_set_self m.keyEqualFunc k hrefl bucket.keys i hidx]
        dsimp only
        rw [get?_set_self bucket.values i v (by omega)]
  · intro bi' bucket' i hfb' hidx
    obtain ⟨rfl, rfl⟩ : bi = bi' ∧ bucket = bucket' := by
      rw [hfb] at hfb'
      have := Option.some_inj.mp hfb'
      exact ⟨congrArg Prod.fst this, congrArg Prod.snd this⟩
    refine ⟨⟨m.buckets.set bi
      (HashBucket.mk (bucket.keys.set i k) (bucket.values.set i v)),
      m.keyEqualFunc, m.keyHashFunc⟩, ?_, ?_, by simp, by simp⟩
    · simp only [HashMap.insert, hfb, hidx]
    · exact get?_set_self m.buckets bi _ hlt
  · intro bi' bucket' hfb' hcount
    obtain ⟨rfl, rfl⟩ : bi = bi' ∧ bucket = bucket' := by
      rw [hfb] at hfb'
      have := Option.some_inj.mp hfb'
      exact ⟨congrArg Prod.fst this, congrArg Prod.snd this⟩
    cases hidx : findBucketIndex m.keyEqualFunc k bucket.keys with
    | none =>
      refine ⟨m, ?_, ?_⟩
      · simp only [HashMap.delete, hfb, hidx]
      · simp only [HashMap.get, hfb, hidx]
    | some i =>
      refine ⟨⟨m.buckets.set bi
        (HashBucket.mk (bucket.keys.eraseIdx i) (bucket.values.eraseIdx i)),
        m.keyEqualFunc, m.keyHashFunc⟩, ?_, ?_⟩
      · simp only [HashMap.delete, hfb, hidx]
      · obtain ⟨x, hx, hex⟩ := findBucketIndex_some_match m.keyEqualFunc k bucket.keys i hidx
        have hc := countP_eraseIdx_of_get? (fun y => m.keyEqualFunc k y) bucket.keys i x hx hex
        have hzero : (bucket.keys.eraseIdx i).countP (fun y => m.keyEqualFunc k y) = 0 := by
          omega
        have hall : ∀ y ∈ bucket.keys.eraseIdx i, m.keyEqualFunc k y = false := by
          intro y hy
          have := List.countP_eq_zero.mp hzero y hy
          simpa using this
        have hnone : findBucketIndex m.keyEqualFunc k (bucket.keys.eraseIdx i) = none :=
          (findBucketIndex_none m.keyEqualFunc k _).mpr hall
        simp only [HashMap.get, findBucket]
        rw [if_pos hhash]
        rw [show ((m.keyHashFunc k).toNat % NUM_BUCKETS) = bi from hbival.symm]
        rw [get?_set_self m.buckets bi _ hlt]
        simp only
        rw [hnone]

instance {K V : Type} (m : HashMap K V) : Decidable m.wellFormed := by
  unfold HashMap.wellFormed
  infer_instance

/-- A concrete hash map for the C10 witness: `Nat` keys and values,
structural equality, and `nullHashFunc`. -/
def c10m : HashMap Nat Nat := mkHashMap (fun a b => a == b) nullHashFunc

/-- Witness for C10 at the concrete map `c10m` with key 3 and value 7. -/
theorem c10_witness :
    (c10m.wellFormed ∧ 0 ≤ c10m.keyHashFunc 3 ∧ c10m.keyEqualFunc 3 3 = true) ∧
    ((∃ m', c10m.insert 3 7 = some m' ∧ m'.get 3 = some (some 7)) ∧
    (∀ bi bucket i, findBucket c10m 3 = some (bi, bucket) →
      findBucketIndex c10m.keyEqualFunc 3 bucket.keys = some i →
      ∃ m', c10m.insert 3 7 = some m' ∧
        m'.buckets.get? bi =
          some (HashBucket.mk (bucket.keys.set i 3) (bucket.values.set i 7)) ∧
        (bucket.keys.set i 3).length = bucket.keys.length ∧
        (bucket.values.set i 7).length = bucket.values.length) ∧
    (∀ bi bucket, findBucket c10m 3 = some (bi, bucket) →
      bucket.keys.countP (fun x => c10m.keyEqualFunc 3 x) ≤ 1 →
      ∃ m', c10m.delete 3 = some m' ∧ m'.get 3 = some none)) :=
  ⟨⟨by decide, by decide, by decide⟩,
    c10_HashMap_operations Nat Nat c10m 3 7 (by decide) (by decide) (by decide)⟩

/-! ## src/j3d/sms_scenes.ts — `unpack` and `readSceneBin` (C5) -/

/-- `DataView.prototype.getInt32(off)` big-endian: the unsigned read,
reinterpreted as a signed 32-bit value. -/
def getInt32BE (buffer : List Nat) (off : Nat) : Option Int :=
  match getUint32BE buffer off with
  | none => none
  | some n => some (if n < 2 ^ 31 then (n : Int) else (n : Int) - 2 ^ 32)

/-- A value produced by `unpack`: unsigned/signed 32-bit numbers, a float
(kept as its raw 32-bit pattern — the claims never inspect float values),
or a length-prefixed string (as code units). -/
inductive UVal where
  | u32 (n : Nat)
  | i32 (n : Int)
  | f32 (bits : Nat)
  | str (s : List Nat)
deriving DecidableEq, Repr

/-- The character loop of `unpack(buffer, sig)`: walks the signature,
reading `B`/`I`/`i`/`f`/`s` fields at the running offset, `.` setting
`allowExtra`, spaces skipped, anything else hitting `assert(false)`.
Returns the final offset, the `allowExtra` flag and the values in order. -/
def unpackLoop (buffer : List Nat) : List Char → Nat → Bool → Option (Nat × Bool × List UVal)
  | [], offs, allowExtra => some (offs, allowExtra, [])
  | c :: rest, offs, allowExtra =>
    if c = 'B' then
      match getUint8 buffer offs with
      | none => none
      | some b =>
        match unpackLoop buffer rest (offs + 1) allowExtra with
        | none => none
        | some (offs', ae, vs) => some (offs', ae, UVal.u32 b :: vs)
    else if c = 'I' then
      match getUint32BE buffer offs with
      | none => none
      | some n =>
        match unpackLoop buffer rest (offs + 4) allowExtra with
        | none => none
        | some (offs', ae, vs) => some (offs', ae, UVal.u32 n :: vs)
    else if c = 'i' then
      match getInt32BE buffer offs with
      | none => none
      | some n =>
        match unpackLoop buffer rest (offs + 4) allowExtra with
        | none => none
        | some (offs', ae, vs) => some (offs', ae, UVal.i32 n :: vs)
    else if c = 'f' then
      match getUint32BE buffer offs with
      | none => none
      | some bits =>
        match unpackLoop buffer rest (offs + 4) allowExtra with
        | none => none
        | some (offs', ae, vs) => some (offs', ae, UVal.f32 bits :: vs)
    else if c = 's' then
      match getUint16BE buffer offs with
      | none => none
      | some size =>
        match readString buffer (offs + 2) size false with
        | none => none
        | some s =>
          match unpackLoop buffer rest (offs + 2 + size) allowExtra with
          | none => none
          | some (offs', ae, vs) => some (offs', ae, UVal.str s :: vs)
    else if c = '.' then
      unpackLoop buffer rest offs true
    else if c = ' ' then
      unpackLoop buffer rest offs allowExtra
    else
      none

/-- `unpack(buffer, sig)`: run the signature loop from offset 0; unless a
`.` appeared, assert the buffer was consumed exactly. The source returns
`[offs, ...result]`; here that is the pair of the final offset and the
value list. -/
def unpack (buffer : List Nat) (sig : String) : Option (Nat × List UVal) :=
  match unpackLoop buffer sig.data 0 false with
  | none => none
  | some (offs, allowExtra, vs) =>
    if allowExtra then some (offs, vs)
    else if buffer.length = offs then some (offs, vs)
    else none

/-- A `DataView` read of a 16-bit value through `createDataView(0, size)`:
bounds-checked against the view length `size` (and, through `getUint16BE`,
against the backing buffer). -/
def viewU16 (buffer : List Nat) (size off : Nat) : Option Nat :=
  if off + 2 ≤ size then getUint16BE buffer off else none

/-- `copyToBuffer(begin, byteLength)`: `ArrayBuffer.prototype.slice`
clamps, and a zero `byteLength` means "to the end of the buffer". -/
def copyToBufferBytes (buffer : List Nat) (b nameSize : Nat) : List Nat :=
  if nameSize = 0 then buffer.drop b
  else (buffer.take (b + nameSize)).drop b

mutual

/-- A parsed scene.bin object: the common `klass`/`name`/`size` header plus
the variant payload (the TS discriminated union on `type`). -/
inductive SceneBinObj where
  | mk (klass name : List Nat) (size : Nat) (data : SceneBinObjData)

/-- The payload of a scene.bin object. Floats are raw 32-bit patterns;
strings are code-unit lists; the optional NPC fields mirror the optional
`bodyColor`/`shirtColor`/`accessoryColor`/`state` members. -/
inductive SceneBinObjData where
  | unknown
  | ambColor (r g b a : Nat)
  | light (x y z : Nat) (r g b a : Nat) (intensity : Nat)
  | model (x y z rotationX rotationY rotationZ scaleX scaleY scaleZ : Nat)
      (manager mdl : List Nat)
      (bodyColor shirtColor accessoryColor state : Option Int)
  | group (children : List SceneBinObj)

end

/-- The declared size field of a parsed object. -/
def SceneBinObj.size : SceneBinObj → Nat
  | .mk _ _ s _ => s

/-- The class string of a parsed object. -/
def SceneBinObj.klass : SceneBinObj → List Nat
  | .mk k _ _ _ => k

/-- The payload of a parsed object. -/
def SceneBinObj.data : SceneBinObj → SceneBinObjData
  | .mk _ _ _ d => d

/-- The group classes parsed with `unpack(params, 'I.')`. -/
def groupClassesA : List String := ["GroupObj", "LightAry", "Strategy", "AmbAry"]

/-- The group classes parsed with `unpack(params, 'II.')`. -/
def groupClassesB : List String := ["IdxGroup", "MarScene"]

/-- The map-object model classes (`'ffffff fffsi s.'`, model name from the
params). -/
def modelClasses : List String :=
  ["BananaTree", "Bathtub", "BellDolpicPolice", "BellDolpicTV", "BiaBell",
   "BiaTurnBridge", "BiaWatermill", "BiaWatermillVertical", "BigWindmill",
   "Coin", "CoinRed", "CraneRotY", "craneUpDown", "Fence", "FenceInner",
   "FenceRevolve", "FenceWaterH", "FenceWaterV", "FerrisWheel", "FlowerCoin",
   "IceBlock", "LeafBoat", "LeanMirror", "Manhole", "MammaYacht",
   "MapObjBase", "MapObjGeneral", "MapObjRootPakkun", "MapObjSmoke",
   "MapObjTreeScale", "MapStaticObj", "Merrygoround", "MiniWindmill",
   "MonumentShine", "Palm", "PalmNatume", "PalmOugi", "PinnaDoor",
   "RiccoLog", "riccoWatermill", "RiccoSwitchShine", "SandCastle", "SandEgg",
   "ShellCup", "ShiningStone", "WoodBarrel", "WoodBlock", "ResetFruit",
   "SandBombBase", "SandBomb", "TurboNozzleDoor", "Viking", "WindmillRoof"]

/-- The actor classes (`'ffffff fffsi s.'`, model name = class name). -/
def actorClasses : List String :=
  ["EMario", "Amenbo", "AnimalBird", "AnimalMew", "BathtubPeach",
   "BossDangoHamuKuri", "BossEel", "BossGesso", "BossPakkun", "EggYoshi",
   "FishoidA", "FishoidB", "FishoidC", "FishoidD", "GateKeeper", "Gesso",
   "Kazekun", "KBossPakkun", "Koopa", "KoopaJr", "LandGesso", "LimitKoopaJr",
   "MameGesso", "NPCBoard", "NPCKinojii", "NPCMareM", "NPCMareMC",
   "NPCMareMD", "NPCMareW", "NPCMareWB", "NPCPeach", "NPCRacoonDog",
   "PoiHana", "PoiHanaRed", "TabePuku", "RiccoSwitch", "SamboHead",
   "SamboFlower", "StayPakkun"]

/-- The male Monte NPC classes (`'ffffff fffsi s s iii i iii.'`). -/
def npcMonteMClasses : List String :=
  ["NPCMonteMA", "NPCMonteMB", "NPCMonteMC", "NPCMonteMD", "NPCMonteME",
   "NPCMonteMH", "NPCMonteMG", "NPCMonteM"]

/-- The female Monte NPC classes (`'ffffff fffsi s s iiii iiii iiii.'`). -/
def npcMonteWClasses : List String := ["NPCMonteW", "NPCMonteWB"]

/-- The classes parsed with `'ffffff fffsI s IffI'`. -/
def billboardClasses : List String :=
  ["Billboard", "BrickBlock", "DolWeathercock", "WoodBox"]

/-- The classes parsed with `'ffffff fffsi s s'` whose model is
`FruitsBoat`. -/
def fruitsBoatClasses : List String := ["FruitsBoatB", "FruitsBoat"]

/-- Membership of a class byte string in one of the case-group lists. -/
def klassIn (klass : List Nat) (classes : List String) : Bool :=
  classes.any (fun s => klass == ascii s)


/-- The common model case body: `unpack` with the given signature, then
build a Model object from `[x y z rx ry rz sx sy sz, manager(s), flags(i),
model(s), …]`; `mdlOverride` is the class groups that ignore the parsed
model string (`model: klass`, or the literal `FruitsBoat`). -/
def parseModelSI (klass name : List Nat) (size : Nat) (params : List Nat)
    (sig : String) (mdlOverride : Option (List Nat)) : Option SceneBinObj :=
  match unpack params sig with
  | some (_, UVal.f32 x :: UVal.f32 y :: UVal.f32 z :: UVal.f32 rx ::
      UVal.f32 ry :: UVal.f32 rz :: UVal.f32 sx :: UVal.f32 sy ::
      UVal.f32 sz :: UVal.str manager :: UVal.i32 _flags :: UVal.str mdl :: _) =>
    some (SceneBinObj.mk klass name size
      (SceneBinObjData.model x y z rx ry rz sx sy sz manager
        (mdlOverride.getD mdl) none none none none))
  | _ => none

/-- The model case body for signatures whose flags field is an unsigned
`I` (`Billboard` group and `MapObjWaterSpray`). -/
def parseModelSIU (klass name : List Nat) (size : Nat) (params : List Nat)
    (sig : String) : Option SceneBinObj :=
  match unpack params sig with
  | some (_, UVal.f32 x :: UVal.f32 y :: UVal.f32 z :: UVal.f32 rx ::
      UVal.f32 ry :: UVal.f32 rz :: UVal.f32 sx :: UVal.f32 sy ::
      UVal.f32 sz :: UVal.str manager :: UVal.u32 _flags :: UVal.str mdl :: _) =>
    some (SceneBinObj.mk klass name size
      (SceneBinObjData.model x y z rx ry rz sx sy sz manager mdl
        none none none none))
  | _ => none

/-- The `SunModel` case body (`'ffffff fffsi'`, model name = class name). -/
def parseSunModel (klass name : List Nat) (size : Nat) (params : List Nat) :
    Option SceneBinObj :=
  match unpack params "ffffff fffsi" with
  | some (_, UVal.f32 x :: UVal.f32 y :: UVal.f32 z :: UVal.f32 rx ::
      UVal.f32 ry :: UVal.f32 rz :: UVal.f32 sx :: UVal.f32 sy ::
      UVal.f32 sz :: UVal.str manager :: UVal.i32 _flags :: _) =>
    some (SceneBinObj.mk klass name size
      (SceneBinObjData.model x y z rx ry rz sx sy sz manager klass
        none none none none))
  | _ => none

/-- The Monte NPC case body: `[…, charManager(s), flags(i), manager(s),
rail(s), bodyColor, shirtColor, state, hat, accessoryColor, …]`, keeping
the four optional color/state fields. -/
def parseNPCMonte (klass name : List Nat) (size : Nat) (params : List Nat)
    (sig : String) : Option SceneBinObj :=
  match unpack params sig with
  | some (_, UVal.f32 x :: UVal.f32 y :: UVal.f32 z :: UVal.f32 rx ::
      UVal.f32 ry :: UVal.f32 rz :: UVal.f32 sx :: UVal.f32 sy ::
      UVal.f32 sz :: UVal.str _charManager :: UVal.i32 _flags ::
      UVal.str manager :: UVal.str _rail :: UVal.i32 bodyColor ::
      UVal.i32 shirtColor :: UVal.i32 state :: UVal.i32 _hat ::
      UVal.i32 accessoryColor :: _) =>
    some (SceneBinObj.mk klass name size
      (SceneBinObjData.model x y z rx ry rz sx sy sz manager klass
        (some bodyColor) (some shirtColor) (some accessoryColor) (some state)))
  | _ => none

/-- The `NPCKinopio` case body (`'ffffff fffsi s s i.'`): only `bodyColor`
is kept. -/
def parseNPCKinopio (klass name : List Nat) (size : Nat) (params : List Nat) :
    Option SceneBinObj :=
  match unpack params "ffffff fffsi s s i." with
  | some (_, UVal.f32 x :: UVal.f32 y :: UVal.f32 z :: UVal.f32 rx ::
      UVal.f32 ry :: UVal.f32 rz :: UVal.f32 sx :: UVal.f32 sy ::
      UVal.f32 sz :: UVal.str _charManager :: UVal.i32 _flags ::
      UVal.str manager :: UVal.str _rail :: UVal.i32 bodyColor :: _) =>
    some (SceneBinObj.mk klass name size
      (SceneBinObjData.model x y z rx ry rz sx sy sz manager klass
        (some bodyColor) none none none))
  | _ => none

/-- The `AmbColor` case body (`'BBBB'`). -/
def parseAmbColor (klass name : List Nat) (size : Nat) (params : List Nat) :
    Option SceneBinObj :=
  match unpack params "BBBB" with
  | some (_, UVal.u32 r :: UVal.u32 g :: UVal.u32 b :: UVal.u32 a :: _) =>
    some (SceneBinObj.mk klass name size (SceneBinObjData.ambColor r g b a))
  | _ => none

/-- The `Light` case body (`'fffBBBBf'`). -/
def parseLight (klass name : List Nat) (size : Nat) (params : List Nat) :
    Option SceneBinObj :=
  match unpack params "fffBBBBf" with
  | some (_, UVal.f32 x :: UVal.f32 y :: UVal.f32 z :: UVal.u32 r ::
      UVal.u32 g :: UVal.u32 b :: UVal.u32 a :: UVal.f32 intensity :: _) =>
    some (SceneBinObj.mk klass name size
      (SceneBinObjData.light x y z r g b a intensity))
  | _ => none

mutual

/-- `readSceneBin(buffer)`: read the `u32` size at offset 0 of the whole
buffer's view (whose read throws when the buffer is shorter than 4 bytes),
bound a second view by `size` (`createDataView(0, size)` asserts
`size <= byteLength`), read the class and name headers — the running `offs`
of the source is written out: the class string starts at 8, the name header
at `8 + klassSize`, the name at `8 + klassSize + 4`, the params slice
`buffer.slice(offs, size)` at `8 + klassSize + 4 + nameSize` — and dispatch
on the class string; group classes recursively read their declared number
of children through `readChildren`. -/
def readSceneBin (buffer : List Nat) : Option SceneBinObj :=
  if _hb : buffer.length < 4 then none
  else
    (getUint32BE buffer 0).bind fun size =>
    if size ≤ buffer.length then
      (viewU16 buffer size 4).bind fun _klassHash =>
      (viewU16 buffer size 6).bind fun klassSize =>
      (readString buffer 8 klassSize false).bind fun klass =>
      (viewU16 buffer size (8 + klassSize)).bind fun _nameHash =>
      (viewU16 buffer size (8 + klassSize + 2)).bind fun nameSize =>
      if 8 + klassSize + 4 + nameSize ≤ size then
        parseSceneBinObj buffer klass
          (copyToBufferBytes buffer (8 + klassSize + 4) nameSize) size
          (8 + klassSize + 4 + nameSize)
          ((buffer.take size).drop (8 + klassSize + 4 + nameSize))
          (by omega) (by omega)
      else none
    else none
termination_by (buffer.length, 1, 0)
decreasing_by
  exact Prod.Lex.right _ (Prod.Lex.left _ _ (by omega))

/-- The class-string switch of `readSceneBin`: `offs3` is the running
offset where the params begin; it is at least 12 (the fixed header is 12
bytes plus the class and name strings) and the buffer holds at least the 4
size bytes — both facts come from the reads `readSceneBin` has already
performed, and are carried as proofs so the recursion is visibly
decreasing. -/
def parseSceneBinObj (buffer klass name : List Nat) (size offs3 : Nat)
    (params : List Nat) (_hbuf : 4 ≤ buffer.length) (_hoffs3 : 12 ≤ offs3) :
    Option SceneBinObj :=
  if klassIn klass groupClassesA then
    (unpack params "I.").bind fun pr =>
    match pr with
    | (paramsSize, UVal.u32 numChildren :: _) =>
      (readChildren buffer (offs3 + paramsSize) numChildren).bind fun children =>
      some (SceneBinObj.mk klass name size (SceneBinObjData.group children))
    | _ => none
  else if klassIn klass groupClassesB then
    (unpack params "II.").bind fun pr =>
    match pr with
    | (paramsSize, UVal.u32 _flags :: UVal.u32 numChildren :: _) =>
      (readChildren buffer (offs3 + paramsSize) numChildren).bind fun children =>
      some (SceneBinObj.mk klass name size (SceneBinObjData.group children))
    | _ => none
  else if klass == ascii "AmbColor" then
    parseAmbColor klass name size params
  else if klass == ascii "Light" then
    parseLight klass name size params
  else if klassIn klass modelClasses then
    parseModelSI klass name size params "ffffff fffsi s." none
  else if klass == ascii "SunModel" then
    parseSunModel klass name size params
  else if klassIn klass actorClasses then
    parseModelSI klass name size params "ffffff fffsi s." (some klass)
  else if klassIn klass npcMonteMClasses then
    parseNPCMonte klass name size params "ffffff fffsi s s iii i iii."
  else if klassIn klass npcMonteWClasses then
    parseNPCMonte klass name size params "ffffff fffsi s s iiii iiii iiii."
  else if klass == ascii "NPCKinopio" then
    parseNPCKinopio klass name size params
  else if klass == ascii "CoinBlue" then
    parseModelSI klass name size params "ffffff fffsi s i" none
  else if klass == ascii "NozzleBox" then
    parseModelSI klass name size params "ffffff fffsi s ssff" none
  else if klass == ascii "Shine" then
    parseModelSI klass name size params "ffffff fffsi s sii" none
  else if klassIn klass fruitsBoatClasses then
    parseModelSI klass name size params "ffffff fffsi s s" (some (ascii "FruitsBoat"))
  else if klassIn klass billboardClasses then
    parseModelSIU klass name size params "ffffff fffsI s IffI"
  else if klass == ascii "MapObjWaterSpray" then
    parseModelSIU klass name size params "ffffff fffsI s IIIIII"
  else
    some (SceneBinObj.mk klass name size SceneBinObjData.unknown)
termination_by (buffer.length, 0, 0)
decreasing_by
  all_goals apply Prod.Lex.left
  all_goals omega

/-- The `readChildren(numChildren)` loop of `readSceneBin`: while children
remain, parse one from `buffer.slice(offs)` (whose `assert` requires
`offs <= buffer.byteLength`) and advance `offs` by the child's declared
`size`. -/
def readChildren (buffer : List Nat) (offs : Nat) (n : Nat) : Option (List SceneBinObj) :=
  match n with
  | 0 => some []
  | n + 1 =>
    if offs ≤ buffer.length then
      match readSceneBin (buffer.drop offs) with
      | none => none
      | some child =>
        match readChildren buffer (offs + child.size) n with
        | none => none
        | some rest => some (child :: rest)
    else none
termination_by (buffer.length - offs, 2, n)
decreasing_by
  · simp only [List.length_drop]
    exact Prod.Lex.right _ (Prod.Lex.left _ _ (by omega))

  · rcases Nat.lt_or_ge (buffer.length - (offs + child.size)) (buffer.length - offs) with h | h
    · exact Prod.Lex.left _ _ h
    · rw [show buffer.length - (offs + child.size) = buffer.length - offs by omega]
      exact Prod.Lex.right _ (Prod.Lex.right _ (by omega))

end

/-- Children laid out sequentially: each child parses from
`buffer.slice(offs)` and the next offset advances by the child's declared
size. -/
def childrenSequentialFrom (buffer : List Nat) : Nat → List SceneBinObj → Prop
  | _, [] => True
  | offs, c :: cs =>
    offs ≤ buffer.length ∧ readSceneBin (buffer.drop offs) = some c ∧
    childrenSequentialFrom buffer (offs + c.size) cs

/-- The group classes' children obligation: the declared child count is the
`u32` that `unpack` reads from the params — through signature `"I."` for the
`GroupObj`/`LightAry`/`Strategy`/`AmbAry` group and `"II."` (a flags word
first) for `IdxGroup`/`MarScene` — the children list has exactly that
length, and it was read by `readChildren` starting right after the unpacked
params, each child from the slice where the previous child's declared size
ended. -/
def groupDeclaredChildren (buffer klass : List Nat) (offs3 : Nat)
    (params : List Nat) (children : List SceneBinObj) : Prop :=
  ∃ paramsSize numChildren,
    ((klassIn klass groupClassesA = true ∧
      ∃ rest, unpack params "I." = some (paramsSize, UVal.u32 numChildren :: rest)) ∨
     (klassIn klass groupClassesB = true ∧
      ∃ flags rest, unpack params "II." =
        some (paramsSize, UVal.u32 flags :: UVal.u32 numChildren :: rest))) ∧
    children.length = numChildren ∧
    readChildren buffer (offs3 + paramsSize) numChildren = some children ∧
    childrenSequentialFrom buffer (offs3 + paramsSize) children

theorem readChildren_spec (buffer : List Nat) :
    ∀ (n offs : Nat) (children : List SceneBinObj),
      readChildren buffer offs n = some children →
      children.length = n ∧ childrenSequentialFrom buffer offs children := by
  intro n
  induction n with
  | zero =>
    intro offs children h
    rw [readChildren] at h
    obtain rfl := Option.some_inj.mp h
    exact ⟨rfl, trivial⟩
  | succ n ih =>
    intro offs children h
    rw [readChildren] at h
    by_cases hoffs : offs ≤ buffer.length
    · rw [if_pos hoffs] at h
      cases hro : readSceneBin (buffer.drop offs) with
      | none => rw [hro] at h; simp at h
      | some child =>
        rw [hro] at h
        simp only at h
        cases hrk : readChildren buffer (offs + child.size) n with
        | none => rw [hrk] at h; simp at h
        | some rest =>
          rw [hrk] at h
          simp only at h
          obtain rfl := Option.some_inj.mp h
          obtain ⟨hlen, hseq⟩ := ih (offs + child.size) rest hrk
          exact ⟨by simp [hlen], hoffs, hro, hseq⟩
    · rw [if_neg hoffs] at h
      simp at h

theorem parseModelSI_shape {klass name : List Nat} {size : Nat} {params : List Nat}
    {sig : String} {mdlOverride : Option (List Nat)} {obj : SceneBinObj}
    (h : parseModelSI klass name size params sig mdlOverride = some obj) :
    obj.size = size ∧ ∀ children, obj.data ≠ SceneBinObjData.group children := by
  unfold parseModelSI at h
  split at h
  · obtain rfl := Option.some_inj.mp h
    exact ⟨rfl, by intro children hc; simp [SceneBinObj.data] at hc⟩
  · exact absurd h (by simp)

theorem parseModelSIU_shape {klass name : List Nat} {size : Nat} {params : List Nat}
    {sig : String} {obj : SceneBinObj}
    (h : parseModelSIU klass name size params sig = some obj) :
    obj.size = size ∧ ∀ children, obj.data ≠ SceneBinObjData.group children := by
  unfold parseModelSIU at h
  split at h
  · obtain rfl := Option.some_inj.mp h
    exact ⟨rfl, by intro children hc; simp [SceneBinObj.data] at hc⟩
  · exact absurd h (by simp)

theorem parseSunModel_shape {klass name : List Nat} {size : Nat} {params : List Nat}
    {obj : SceneBinObj} (h : parseSunModel klass name size params = some obj) :
    obj.size = size ∧ ∀ children, obj.data ≠ SceneBinObjData.group children := by
  unfold parseSunModel at h
  split at h
  · obtain rfl := Option.some_inj.mp h
    exact ⟨rfl, by intro children hc; simp [SceneBinObj.data] at hc⟩
  · exact absurd h (by simp)

theorem parseNPCMonte_shape {klass name : List Nat} {size : Nat} {params : List Nat}
    {sig : String} {obj : SceneBinObj}
    (h : parseNPCMonte klass name size params sig = some obj) :
    obj.size = size ∧ ∀ children, obj.data ≠ SceneBinObjData.group children := by
  unfold parseNPCMonte at h
  split at h
  · obtain rfl := Option.some_inj.mp h
    exact ⟨rfl, by intro children hc; simp [SceneBinObj.data] at hc⟩
  · exact absurd h (by simp)

theorem parseNPCKinopio_shape {klass name : List Nat} {size : Nat} {params : List Nat}
    {obj : SceneBinObj} (h : parseNPCKinopio klass name size params = some obj) :
    obj.size = size ∧ ∀ children, obj.data ≠ SceneBinObjData.group children := by
  unfold parseNPCKinopio at h
  split at h
  · obtain rfl := Option.some_inj.mp h
    exact ⟨rfl, by intro children hc; simp [SceneBinObj.data] at hc⟩
  · exact absurd h (by simp)

theorem parseAmbColor_shape {klass name : List Nat} {size : Nat} {params : List Nat}
    {obj : SceneBinObj} (h : parseAmbColor klass name size params = some obj) :
    obj.size = size ∧ ∀ children, obj.data ≠ SceneBinObjData.group children := by
  unfold parseAmbColor at h
  split at h
  · obtain rfl := Option.some_inj.mp h
    exact ⟨rfl, by intro children hc; simp [SceneBinObj.data] at hc⟩
  · exact absurd h (by simp)

theorem parseLight_shape {klass name : List Nat} {size : Nat} {params : List Nat}
    {obj : SceneBinObj} (h : parseLight klass name size params = some obj) :
    obj.size = size ∧ ∀ children, obj.data ≠ SceneBinObjData.group children := by
  unfold parseLight at h
  split at h
  · obtain rfl := Option.some_inj.mp h
    exact ⟨rfl, by intro children hc; simp [SceneBinObj.data] at hc⟩
  · exact absurd h (by simp)

theorem parseSceneBinObj_shape {buffer klass name : List Nat} {size offs3 : Nat}
    {params : List Nat} {hbuf : 4 ≤ buffer.length} {hoffs3 : 12 ≤ offs3}
    {obj : SceneBinObj}
    (h : parseSceneBinObj buffer klass name size offs3 params hbuf hoffs3 = some obj) :
    obj.size = size ∧
    (∀ children, obj.data = SceneBinObjData.group children →
      groupDeclaredChildren buffer obj.klass offs3 params children) := by
  rw [parseSceneBinObj] at h
  by_cases h1 : klassIn klass groupClassesA = true
  case pos =>
    rw [if_pos h1] at h
    rw [Option.bind_eq_some] at h
    obtain ⟨pr, hun, h⟩ := h
    obtain ⟨ps, vs⟩ := pr
    rcases vs with _ | ⟨v, vs'⟩
    · exact Option.noConfusion h
    cases v with
    | u32 numChildren =>
      simp only at h
      rw [Option.bind_eq_some] at h
      obtain ⟨children, hrc, h⟩ := h
      injection h with h
      subst h
      refine ⟨rfl, ?_⟩
      intro ch hdata
      simp only [SceneBinObj.data] at hdata
      injection hdata with hdata
      subst hdata
      exact ⟨ps, numChildren, Or.inl ⟨h1, vs', hun⟩,
        (readChildren_spec buffer numChildren (offs3 + ps) children hrc).1, hrc,
        (readChildren_spec buffer numChildren (offs3 + ps) children hrc).2⟩
    | i32 n => exact Option.noConfusion h
    | f32 b => exact Option.noConfusion h
    | str s => exact Option.noConfusion h
  case neg =>
  rw [if_neg h1] at h
  by_cases h2 : klassIn klass groupClassesB = true
  case pos =>
    rw [if_pos h2] at h
    rw [Option.bind_eq_some] at h
    obtain ⟨pr, hun, h⟩ := h
    obtain ⟨ps, vs⟩ := pr
    rcases vs with _ | ⟨v, vs'⟩
    · exact Option.noConfusion h
    cases v with
    | u32 f =>
      rcases vs' with _ | ⟨v2, vs''⟩
      · exact Option.noConfusion h
      cases v2 with
      | u32 numChildren =>
        simp only at h
        rw [Option.bind_eq_some] at h
        obtain ⟨children, hrc, h⟩ := h
        injection h with h
        subst h
        refine ⟨rfl, ?_⟩
        intro ch hdata
        simp only [SceneBinObj.data] at hdata
        injection hdata with hdata
        subst hdata
        exact ⟨ps, numChildren, Or.inr ⟨h2, f, vs'', hun⟩,
          (readChildren_spec buffer numChildren (offs3 + ps) children hrc).1, hrc,
          (readChildren_spec buffer numChildren (offs3 + ps) children hrc).2⟩
      | i32 n => exact Option.noConfusion h
      | f32 b => exact Option.noConfusion h
      | str s => exact Option.noConfusion h
    | i32 n => exact Option.noConfusion h
    | f32 b => exact Option.noConfusion h
    | str s => exact Option.noConfusion h
  case neg =>
  rw [if_neg h2] at h
  by_cases h3 : (klass == ascii "AmbColor") = true
  case pos =>
    rw [if_pos h3] at h
    obtain ⟨hs, hng⟩ := parseAmbColor_shape h
    exact ⟨hs, fun children hc => absurd hc (hng children)⟩
  case neg =>
  rw [if_neg h3] at h
  by_cases h4 : (klass == ascii "Light") = true
  case pos =>
    rw [if_pos h4] at h
    obtain ⟨hs, hng⟩ := parseLight_shape h
    exact ⟨hs, fun children hc => absurd hc (hng children)⟩
  case neg =>
  rw [if_neg h4] at h
  by_cases h5 : klassIn klass modelClasses = true
  case pos =>
    rw [if_pos h5] at h
    obtain ⟨hs, hng⟩ := parseModelSI_shape h
    exact ⟨hs, fun children hc => absurd hc (hng children)⟩
  case neg =>
  rw [if_neg h5] at h
  by_cases h6 : (klass == ascii "SunModel") = true
  case pos =>
    rw [if_pos h6] at h
    obtain ⟨hs, hng⟩ := parseSunModel_shape h
    exact ⟨hs, fun children hc => absurd hc (hng children)⟩
  case neg =>
  rw [if_neg h6] at h
  by_cases h7 : klassIn klass actorClasses = true
  case pos =>
    rw [if_pos h7] at h
    obtain ⟨hs, hng⟩ := parseModelSI_shape h
    exact ⟨hs, fun children hc => absurd hc (hng children)⟩
  case neg =>
  rw [if_neg h7] at h
  by_cases h8 : klassIn klass npcMonteMClasses = true
  case pos =>
    rw [if_pos h8] at h
    obtain ⟨hs, hng⟩ := parseNPCMonte_shape h
    exact ⟨hs, fun children hc => absurd hc (hng children)⟩
  case neg =>
  rw [if_neg h8] at h
  by_cases h9 : klassIn klass npcMonteWClasses = true
  case pos =>
    rw [if_pos h9] at h
    obtain ⟨hs, hng⟩ := parseNPCMonte_shape h
    exact ⟨hs, fun children hc => absurd hc (hng children)⟩
  case neg =>
  rw [if_neg h9] at h
  by_cases h10 : (klass == ascii "NPCKinopio") = true
  case pos =>
    rw [if_pos h10] at h
    obtain ⟨hs, hng⟩ := parseNPCKinopio_shape h
    exact ⟨hs, fun children hc => absurd hc (hng children)⟩
  case neg =>
  rw [if_neg h10] at h
  by_cases h11 : (klass == ascii "CoinBlue") = true
  case pos =>
    rw [if_pos h11] at h
    obtain ⟨hs, hng⟩ := parseModelSI_shape h
    exact ⟨hs, fun children hc => absurd hc (hng children)⟩
  case neg =>
  rw [if_neg h11] at h
  by_cases h12 : (klass == ascii "NozzleBox") = true
  case pos =>
    rw [if_pos h12] at h
    obtain ⟨hs, hng⟩ := parseModelSI_shape h
    exact ⟨hs, fun children hc => absurd hc (hng children)⟩
  case neg =>
  rw [if_neg h12] at h
  by_cases h13 : (klass == ascii "Shine") = true
  case pos =>
    rw [if_pos h13] at h
    obtain ⟨hs, hng⟩ := parseModelSI_shape h
    exact ⟨hs, fun children hc => absurd hc (hng children)⟩
  case neg =>
  rw [if_neg h13] at h
  by_cases h14 : klassIn klass fruitsBoatClasses = true
  case pos =>
    rw [if_pos h14] at h
    obtain ⟨hs, hng⟩ := parseModelSI_shape h
    exact ⟨hs, fun children hc => absurd hc (hng children)⟩
  case neg =>
  rw [if_neg h14] at h
  by_cases h15 : klassIn klass billboardClasses = true
  case pos =>
    rw [if_pos h15] at h
    obtain ⟨hs, hng⟩ := parseModelSIU_shape h
    exact ⟨hs, fun children hc => absurd hc (hng children)⟩
  case neg =>
  rw [if_neg h15] at h
  by_cases h16 : (klass == ascii "MapObjWaterSpray") = true
  case pos =>
    rw [if_pos h16] at h
    obtain ⟨hs, hng⟩ := parseModelSIU_shape h
    exact ⟨hs, fun children hc => absurd hc (hng children)⟩
  case neg =>
  rw [if_neg h16] at h
  injection h with h
  subst h
  refine ⟨rfl, ?_⟩
  intro ch hdata
  simp [SceneBinObj.data] at hdata

theorem parseSceneBinObj_nil (buffer name : List Nat) (size offs3 : Nat)
    (params : List Nat) (hbuf : 4 ≤ buffer.length) (hoffs3 : 12 ≤ offs3) :
    parseSceneBinObj buffer [] name size offs3 params hbuf hoffs3 =
      some (SceneBinObj.mk [] name size SceneBinObjData.unknown) := by
  rw [parseSceneBinObj]
  rw [if_neg (by decide : ¬ (klassIn [] groupClassesA = true))]
  rw [if_neg (by decide : ¬ (klassIn [] groupClassesB = true))]
  rw [if_neg (by decide : ¬ (([] : List Nat) == ascii "AmbColor") = true)]
  rw [if_neg (by decide : ¬ (([] : List Nat) == ascii "Light") = true)]
  rw [if_neg (by decide : ¬ (klassIn [] modelClasses = true))]
  rw [if_neg (by decide : ¬ (([] : List Nat) == ascii "SunModel") = true)]
  rw [if_neg (by decide : ¬ (klassIn [] actorClasses = true))]
  rw [if_neg (by decide : ¬ (klassIn [] npcMonteMClasses = true))]
  rw [if_neg (by decide : ¬ (klassIn [] npcMonteWClasses = true))]
  rw [if_neg (by decide : ¬ (([] : List Nat) == ascii "NPCKinopio") = true)]
  rw [if_neg (by decide : ¬ (([] : List Nat) == ascii "CoinBlue") = true)]
  rw [if_neg (by decide : ¬ (([] : List Nat) == ascii "NozzleBox") = true)]
  rw [if_neg (by decide : ¬ (([] : List Nat) == ascii "Shine") = true)]
  rw [if_neg (by decide : ¬ (klassIn [] fruitsBoatClasses = true))]
  rw [if_neg (by decide : ¬ (klassIn [] billboardClasses = true))]
  rw [if_neg (by decide : ¬ (([] : List Nat) == ascii "MapObjWaterSpray") = true)]

/-- C5 counterexample input: declared size 12, equal to the buffer length,
but a class-string size of 200 that runs past the end of the buffer. -/
def c5cbuf : List Nat := [0, 0, 0, 12, 0, 0, 0, 200, 0, 0, 0, 0]

/-- C5 witness input: a 24-byte `GroupObj` with an empty name and a single
`u32` params word declaring zero children — offset 0: size 24; offset 4:
class hash 0; offset 6: class size 8; offset 8: `"GroupObj"`; offset 16:
name hash 0; offset 18: name size 0; offset 20: the params `u32` 0. -/
def c5gbuf : List Nat :=
  [0, 0, 0, 24, 0, 0, 0, 8, 71, 114, 111, 117, 112, 79, 98, 106,
   0, 0, 0, 0, 0, 0, 0, 0]

/-- The object `readSceneBin` produces from `c5gbuf` (a name size of 0
makes `copyToBuffer` take the rest of the buffer, here the params bytes). -/
def c5gobj : SceneBinObj :=
  SceneBinObj.mk (ascii "GroupObj") [0, 0, 0, 0] 24 (SceneBinObjData.group [])

/-- C5 (amended): `readSceneBin` terminates on every buffer (it is a total
function here, by the lexicographic measure of its mutual recursion), and
whenever it returns an object rather than failing, the object's `size`
field equals the unsigned 32-bit big-endian value at offset 0 of its
buffer and lies within the buffer; and when the object is a group, the
class-size and name-size header fields locate its params, and the children
satisfy `groupDeclaredChildren`: their number is exactly the `numChildren`
word that `unpack` reads from the params (signature `"I."` for the first
group family, `"II."` for the second), and `readChildren` read them
starting right after the params, each child parsing from the slice of the
buffer beginning where the previous child's declared size ended. The
original claim's hypothesis (every nested declared size positive and
within its enclosing buffer) does not guarantee an object is returned:
see the counterexample. -/
theorem c5_readSceneBin_size_children (buffer : List Nat) (obj : SceneBinObj)
    (h : readSceneBin buffer = some obj) :
    getUint32BE buffer 0 = some obj.size ∧ obj.size ≤ buffer.length ∧
    (∀ children, obj.data = SceneBinObjData.group children →
      ∃ klassSize nameSize,
        viewU16 buffer obj.size 6 = some klassSize ∧
        viewU16 buffer obj.size (8 + klassSize + 2) = some nameSize ∧
        groupDeclaredChildren buffer obj.klass (8 + klassSize + 4 + nameSize)
          ((buffer.take obj.size).drop (8 + klassSize + 4 + nameSize)) children) := by
  rw [readSceneBin] at h
  by_cases hb : buffer.length < 4
  · rw [dif_pos hb] at h
    exact Option.noConfusion h
  · rw [dif_neg hb] at h
    rw [Option.bind_eq_some] at h
    obtain ⟨size, hsize, h⟩ := h
    by_cases hs : size ≤ buffer.length
    · rw [if_pos hs] at h
      rw [Option.bind_eq_some] at h
      obtain ⟨kh, hkh, h⟩ := h
      rw [Option.bind_eq_some] at h
      obtain ⟨ks, hks, h⟩ := h
      rw [Option.bind_eq_some] at h
      obtain ⟨klass, hkl, h⟩ := h
      rw [Option.bind_eq_some] at h
      obtain ⟨nh, hnh, h⟩ := h
      rw [Option.bind_eq_some] at h
      obtain ⟨ns, hns, h⟩ := h
      by_cases hfit : 8 + ks + 4 + ns ≤ size
      · rw [if_pos hfit] at h
        obtain ⟨hsz, hgrp⟩ := parseSceneBinObj_shape h
        rw [hsz]
        exact ⟨hsize, hs, fun children hc => ⟨ks, ns, hks, hns, hgrp children hc⟩⟩
      · rw [if_neg hfit] at h
        exact Option.noConfusion h
    · rw [if_neg hs] at h
      exact Option.noConfusion h

/-- C5 counterexample: on `c5cbuf` the declared size (12) is positive and
lies within the buffer (length 12), there are no nested objects, yet
`readSceneBin` fails (the class-string read of 200 bytes at offset 8
overruns the buffer, which in the source throws), so the original claim's
"returns an object" does not follow from its size hypothesis. -/
theorem c5_counterexample :
    getUint32BE c5cbuf 0 = some 12 ∧ 0 < 12 ∧ 12 ≤ c5cbuf.length ∧
    readSceneBin c5cbuf = none := by
  refine ⟨by decide, by decide, by decide, ?_⟩
  rw [readSceneBin, dif_neg (by decide : ¬ (c5cbuf.length < 4))]
  rw [(by decide : getUint32BE c5cbuf 0 = some 12)]
  simp only [Option.some_bind]
  rw [if_pos (by decide : (12 : Nat) ≤ c5cbuf.length)]
  rw [(by decide : viewU16 c5cbuf 12 4 = some 0)]
  simp only [Option.some_bind]
  rw [(by decide : viewU16 c5cbuf 12 6 = some 200)]
  simp only [Option.some_bind]
  rw [(by decide : readString c5cbuf 8 200 false = none)]
  simp only [Option.none_bind]

theorem parseSceneBinObj_groupA (buffer klass name : List Nat)
    (size offs3 : Nat) (params : List Nat) (hbuf : 4 ≤ buffer.length)
    (hoffs3 : 12 ≤ offs3) (ps n : Nat) (rest : List UVal)
    (hk : klassIn klass groupClassesA = true)
    (hu : unpack params "I." = some (ps, UVal.u32 n :: rest)) :
    parseSceneBinObj buffer klass name size offs3 params hbuf hoffs3 =
      (readChildren buffer (offs3 + ps) n).bind fun children =>
        some (SceneBinObj.mk klass name size (SceneBinObjData.group children)) := by
  rw [parseSceneBinObj, if_pos hk, hu, Option.some_bind]

theorem readSceneBin_c5gbuf : readSceneBin c5gbuf = some c5gobj := by
  rw [readSceneBin, dif_neg (by decide : ¬ (c5gbuf.length < 4))]
  rw [(by decide : getUint32BE c5gbuf 0 = some 24)]
  simp only [Option.some_bind]
  rw [if_pos (by decide : (24 : Nat) ≤ c5gbuf.length)]
  rw [(by decide : viewU16 c5gbuf 24 4 = some 0)]
  simp only [Option.some_bind]
  rw [(by decide : viewU16 c5gbuf 24 6 = some 8)]
  simp only [Option.some_bind]
  rw [(by decide : readString c5gbuf 8 8 false = some (ascii "GroupObj"))]
  simp only [Option.some_bind]
  rw [(by decide : viewU16 c5gbuf 24 (8 + 8) = some 0)]
  simp only [Option.some_bind]
  rw [(by decide : viewU16 c5gbuf 24 (8 + 8 + 2) = some 0)]
  simp only [Option.some_bind]
  rw [if_pos (by decide : 8 + 8 + 4 + 0 ≤ 24)]
  rw [parseSceneBinObj_groupA c5gbuf (ascii "GroupObj")
    (copyToBufferBytes c5gbuf (8 + 8 + 4) 0) 24 (8 + 8 + 4 + 0)
    ((c5gbuf.take 24).drop (8 + 8 + 4 + 0)) (by decide) (by decide) 4 0 []
    (by decide) (by decide)]
  rw [(by rw [readChildren] :
    readChildren c5gbuf (8 + 8 + 4 + 0 + 4) 0 = some [])]
  simp only [Option.some_bind]
  rw [(by decide : copyToBufferBytes c5gbuf (8 + 8 + 4) 0 = [0, 0, 0, 0])]
  rfl

/-- C5 witness: `c5gbuf` parses to a concrete `GroupObj` group object, and
the amended theorem's conclusion, including the declared-children clause,
holds for it. -/
theorem c5_witness :
    readSceneBin c5gbuf = some c5gobj ∧
    (getUint32BE c5gbuf 0 = some c5gobj.size ∧ c5gobj.size ≤ c5gbuf.length ∧
      (∀ children, c5gobj.data = SceneBinObjData.group children →
        ∃ klassSize nameSize,
          viewU16 c5gbuf c5gobj.size 6 = some klassSize ∧
          viewU16 c5gbuf c5gobj.size (8 + klassSize + 2) = some nameSize ∧
          groupDeclaredChildren c5gbuf c5gobj.klass (8 + klassSize + 4 + nameSize)
            ((c5gbuf.take c5gobj.size).drop (8 + klassSize + 4 + nameSize))
            children)) :=
  ⟨readSceneBin_c5gbuf,
    c5_readSceneBin_size_children c5gbuf c5gobj readSceneBin_c5gbuf⟩
